import Mathlib

/-!
Verification development for the ChromeOS policy upload job
(`chrome/browser/chromeos/policy/upload_job_impl.cc`).

The development shallowly embeds the two cores of that file:

* the multipart/form-data assembly performed by `UploadJobImpl::SetUpMultipart`
  (byte strings are modelled as `List Char`, one `Char` per byte), and
* the retry state machine (`Start`, `RequestAccessToken`, `SetUpMultipart`,
  `StartUpload`, `OnGetTokenSuccess`, `OnGetTokenFailure`, `HandleError`,
  `OnURLFetchComplete`) as a step function over an explicit `Job` record,
  with the externally visible actions (token requests, token invalidations,
  scheduled delayed tasks, URL-fetcher creation, delegate callbacks)
  reified as a trace of `Effect`s.

A multipart parser (modelled from the specification's round-trip wording,
not from the C++ source, which contains no parser) is defined further below
to state the round-trip properties.
-/

namespace UploadJob

/-- Byte strings: one `Char` per byte. -/
abbrev Str := List Char

/-- The two-byte line terminator used throughout the multipart format. -/
def crlf : Str := '\r' :: '\n' :: []

/-- One part of the multipart message; mirrors class `DataSegment`.
`headerEntries` models the `std::map<std::string, std::string>` of custom
header fields; the map's defining property (keys strictly increasing) is
stated as a hypothesis where relevant, and emission iterates in sorted key
order exactly as iterating the `std::map` does. -/
structure DataSegment where
  name : Str
  filename : Str
  headerEntries : List (Str × Str)
  data : Str
deriving DecidableEq

/-- Ordering of header entries by field name, as in `std::map`'s iteration
order (lexicographic on the key). -/
def keyLe (p q : Str × Str) : Prop := p.1 ≤ q.1

instance : DecidableRel keyLe := fun p q => inferInstanceAs (Decidable (p.1 ≤ q.1))

instance : IsTotal (Str × Str) keyLe := ⟨fun a b => le_total a.1 b.1⟩

instance : IsTrans (Str × Str) keyLe := ⟨fun _ _ _ h1 h2 => le_trans h1 h2⟩

/-- Iteration order of the `std::map` holding the custom header fields:
entries sorted by key. -/
def sortedHeaders (hs : List (Str × Str)) : List (Str × Str) :=
  List.insertionSort keyLe hs

/-- One custom header field, `<key>: <value>\r\n` (upload_job_impl.cc:251). -/
def headerLine (e : Str × Str) : Str := e.1 ++ (':' :: ' ' :: []) ++ e.2 ++ crlf

/-- The block of custom header fields of a segment. -/
def headerBlock (hs : List (Str × Str)) : Str := (hs.map headerLine).flatten

/-- The dash-boundary `--<boundary>`. -/
def dashBoundary (b : Str) : Str := '-' :: '-' :: b

/-- The bytes appended to the body for one data segment
(upload_job_impl.cc:240-255): boundary line, `Content-Disposition` header
with optional filename attribute, the custom header fields in map order,
a blank line, the raw data and a final CRLF. -/
def segmentChunk (b : Str) (s : DataSegment) : Str :=
  dashBoundary b ++ crlf
  ++ "Content-Disposition: form-data; name=\"".toList ++ s.name ++ ('"' :: [])
  ++ (if s.filename = [] then [] else "; filename=\"".toList ++ s.filename ++ ('"' :: []))
  ++ crlf
  ++ headerBlock (sortedHeaders s.headerEntries)
  ++ crlf ++ s.data ++ crlf

/-- The complete assembled POST body (upload_job_impl.cc:240-256): all
segment chunks in input order followed by the terminal `--<boundary>--\r\n`. -/
def multipartBody (b : Str) (segs : List DataSegment) : Str :=
  (segs.map (segmentChunk b)).flatten ++ dashBoundary b ++ ('-' :: '-' :: []) ++ crlf

/-- The duplicate-name scan of `SetUpMultipart` (upload_job_impl.cc:212-218):
walk the segments, tracking the set of names seen so far; report `true` as
soon as a segment's name was already seen. -/
def hasDupNamesAux (seen : List Str) : List DataSegment → Bool
  | [] => false
  | s :: rest => if s.name ∈ seen then true else hasDupNamesAux (s.name :: seen) rest

/-- Whether some two segments share a name (the condition under which
`SetUpMultipart` returns `false`). -/
def hasDupNames (segs : List DataSegment) : Bool := hasDupNamesAux [] segs

/-- Job states, mirroring `UploadJob::State`. -/
inductive JobState
  | IDLE
  | ACQUIRING_TOKEN
  | PREPARING_CONTENT
  | UPLOADING
  | SUCCESS
  | ERROR
deriving DecidableEq, Repr

/-- Error classification delivered to `HandleError`/`OnFailure`. -/
inductive ErrorCode
  | AUTHENTICATION_ERROR
  | NETWORK_ERROR
  | SERVER_ERROR
deriving DecidableEq, Repr

/-- The two kinds of delayed task `HandleError` can post. -/
inductive TaskKind
  | requestTokenTask
  | startUploadTask
deriving DecidableEq, Repr

/-- Externally visible actions of the job, in program order: a token request
issued to the token service, a token invalidation (with the token passed to
`InvalidateAccessToken`), a delayed task posted to the task runner, a URL
fetcher created and started (with the bearer token, MIME boundary and POST
body it is given), and the two delegate callbacks. -/
inductive Effect
  | tokenRequested
  | tokenInvalidated (tok : Str)
  | delayedTask (t : TaskKind)
  | fetcherStarted (tok : Str) (boundary : Str) (body : Str)
  | onSuccess
  | onFailure (e : ErrorCode)
deriving DecidableEq, Repr

/-- The mutable fields of `UploadJobImpl`: `state_`, `retry_`,
`access_token_`, `mime_boundary_`, `post_data_`, `data_segments_`, plus the
liveness of the two owned request objects (`access_token_request_`,
`upload_fetcher_`) and of the at-most-one pending delayed task. -/
structure Job where
  state : JobState
  retry : Nat
  accessToken : Str
  mimeBoundary : Option Str
  postData : Option Str
  dataSegments : List DataSegment
  accessTokenRequest : Bool
  uploadFetcher : Bool
  pendingTask : Option TaskKind
deriving DecidableEq

/-- Number of upload attempts (upload_job_impl.cc:33). -/
def kMaxAttempts : Nat := 4

/-- A freshly constructed job with a valid upload URL
(upload_job_impl.cc:128-154). -/
def initialJob : Job :=
  { state := .IDLE, retry := 0, accessToken := [], mimeBoundary := none,
    postData := none, dataSegments := [], accessTokenRequest := false,
    uploadFetcher := false, pendingTask := none }

/-- Mirrors `UploadJobImpl::AddDataSegment` (upload_job_impl.cc:159-173): outside
IDLE the call returns without effect; in IDLE the segment is appended. -/
def addDataSegment (name filename : Str) (headers : List (Str × Str))
    (data : Str) (j : Job) : Job :=
  if j.state ≠ .IDLE then j
  else { j with dataSegments :=
          j.dataSegments ++ [⟨name, filename, headers, data⟩] }

/-- Mirrors `UploadJobImpl::RequestAccessToken` (upload_job_impl.cc:193-203). -/
def requestAccessToken (j : Job) : Job × List Effect :=
  ({ j with state := .ACQUIRING_TOKEN, accessTokenRequest := true },
   [.tokenRequested])

/-- Mirrors `UploadJobImpl::Start` (upload_job_impl.cc:175-185): no-op outside IDLE,
otherwise requests an access token. -/
def start (j : Job) : Job × List Effect :=
  if j.state ≠ .IDLE then (j, []) else requestAccessToken j

/-- Mirrors `UploadJobImpl::SetUpMultipart` (upload_job_impl.cc:205-269), with the
generator's boundary passed as argument `b`: sets state to
PREPARING_CONTENT; returns early when boundary and body are already
computed; fails (before generating any boundary or writing any body byte)
when two segments share a name; otherwise stores the boundary, assembles the
body and discards the segments. -/
def setUpMultipart (b : Str) (j : Job) : Bool × Job :=
  let j1 := { j with state := .PREPARING_CONTENT }
  if j1.mimeBoundary.isSome ∧ j1.postData.isSome then (true, j1)
  else if hasDupNames j1.dataSegments then (false, j1)
  else
    (true,
      { j1 with
          mimeBoundary := some b
          postData := some (multipartBody b j1.dataSegments)
          dataSegments := [] })

/-- Mirrors `UploadJobImpl::CreateAndStartURLFetcher` (upload_job_impl.cc:271-286):
creates and starts the fetcher carrying the bearer token, the boundary (via
the content type) and the assembled body. -/
def createAndStartURLFetcher (tok : Str) (j : Job) : Job × List Effect :=
  ({ j with uploadFetcher := true },
   [.fetcherStarted tok (j.mimeBoundary.getD []) (j.postData.getD [])])

/-- Mirrors `UploadJobImpl::StartUpload` (upload_job_impl.cc:288-298): on assembly
failure go directly to ERROR with no further action; on success start the
fetcher with the cached token and enter UPLOADING. -/
def startUpload (b : Str) (j : Job) : Job × List Effect :=
  match setUpMultipart b j with
  | (false, j1) => ({ j1 with state := .ERROR }, [])
  | (true, j1) =>
    let p := createAndStartURLFetcher j1.accessToken j1
    ({ p.1 with state := .UPLOADING }, p.2)

/-- Mirrors `UploadJobImpl::HandleError` (upload_job_impl.cc:323-359): increment the
retry counter and drop the fetcher; at `kMaxAttempts` clear token and body,
enter ERROR and call `OnFailure`; below the bound, an authentication error
invalidates and clears the token and schedules a delayed token re-request,
and any other error sets state to ACQUIRING_TOKEN and schedules a delayed
`StartUpload` reusing the cached token. -/
def handleError (e : ErrorCode) (j : Job) : Job × List Effect :=
  let j1 := { j with retry := j.retry + 1, uploadFetcher := false }
  if kMaxAttempts ≤ j1.retry then
    ({ j1 with accessToken := [], postData := none, state := .ERROR },
     [.onFailure e])
  else if e = .AUTHENTICATION_ERROR then
    ({ j1 with accessToken := [], pendingTask := some .requestTokenTask },
     [.tokenInvalidated j1.accessToken, .delayedTask .requestTokenTask])
  else
    ({ j1 with state := .ACQUIRING_TOKEN, pendingTask := some .startUploadTask },
     [.delayedTask .startUploadTask])

/-- Mirrors `UploadJobImpl::OnGetTokenSuccess` (upload_job_impl.cc:300-311): cache
the token and start the upload (`b` is the boundary the generator yields if
assembly runs). -/
def onGetTokenSuccess (tok b : Str) (j : Job) : Job × List Effect :=
  startUpload b { j with accessTokenRequest := false, accessToken := tok }

/-- Mirrors `UploadJobImpl::OnGetTokenFailure` (upload_job_impl.cc:313-321). -/
def onGetTokenFailure (j : Job) : Job × List Effect :=
  handleError .AUTHENTICATION_ERROR { j with accessTokenRequest := false }

/-- Mirrors `UploadJobImpl::OnURLFetchComplete` (upload_job_impl.cc:361-386):
transport failure is a NETWORK_ERROR; HTTP 200 clears token and body, enters
SUCCESS and calls `OnSuccess`; HTTP 401 is an AUTHENTICATION_ERROR; every
other response code is a SERVER_ERROR. -/
def onURLFetchComplete (ok : Bool) (code : Nat) (j : Job) : Job × List Effect :=
  if ok = false then handleError .NETWORK_ERROR j
  else if code = 200 then
    ({ j with
         uploadFetcher := false
         accessToken := []
         postData := none
         state := .SUCCESS }, [.onSuccess])
  else if code = 401 then handleError .AUTHENTICATION_ERROR j
  else handleError .SERVER_ERROR j

/-- The events that can reach the job: the two public methods, the token
service callbacks (deliverable only while a token request is outstanding),
the delayed-task runner firing (only while a task is pending; `b` is the
boundary the generator would produce), and URL fetch completion (only while
the fetcher is alive). -/
inductive Event
  | evStart
  | evAddSegment (name filename : Str) (headers : List (Str × Str)) (data : Str)
  | evTokenOk (tok b : Str)
  | evTokenFail
  | evTimer (b : Str)
  | evFetchDone (ok : Bool) (code : Nat)

/-- One event delivered to the job. Callbacks whose issuing object is no
longer alive (reset request, reset fetcher, no pending task) cannot be
delivered and leave the job unchanged. -/
def step (j : Job) : Event → Job × List Effect
  | .evStart => start j
  | .evAddSegment n f h d => (addDataSegment n f h d j, [])
  | .evTokenOk tok b =>
    if j.accessTokenRequest then onGetTokenSuccess tok b j else (j, [])
  | .evTokenFail => if j.accessTokenRequest then onGetTokenFailure j else (j, [])
  | .evTimer b =>
    match j.pendingTask with
    | none => (j, [])
    | some .requestTokenTask => requestAccessToken { j with pendingTask := none }
    | some .startUploadTask => startUpload b { j with pendingTask := none }
  | .evFetchDone ok code =>
    if j.uploadFetcher then onURLFetchComplete ok code j else (j, [])

/-- Deliver a list of events in order, accumulating the emitted effects. -/
def run (j : Job) : List Event → Job × List Effect
  | [] => (j, [])
  | e :: es =>
    let p := step j e
    let q := run p.1 es
    (q.1, p.2 ++ q.2)

/-- Whether an effect is a delegate callback (`OnSuccess` or `OnFailure`). -/
def isDelegateCallback : Effect → Bool
  | .onSuccess => true
  | .onFailure _ => true
  | _ => false

/-- The reachable-state invariant of the job: at most one asynchronous
source (token request, fetcher, pending delayed task) is outstanding at a
time, outstanding sources only exist in the states that created them,
PREPARING_CONTENT is transient (never observable between events), IDLE is
pristine, terminal states have nothing outstanding, the retry counter stays
within the attempt budget, and the body/boundary/segment fields respect the
assembly lifecycle. -/
def Inv (j : Job) : Prop :=
  (j.accessTokenRequest = true → j.uploadFetcher = false ∧ j.pendingTask = none) ∧
  (j.uploadFetcher = true → j.accessTokenRequest = false ∧ j.pendingTask = none) ∧
  (j.pendingTask.isSome → j.accessTokenRequest = false ∧ j.uploadFetcher = false) ∧
  j.state ≠ .PREPARING_CONTENT ∧
  (j.state = .IDLE → j.accessTokenRequest = false ∧ j.uploadFetcher = false ∧
    j.pendingTask = none ∧ j.retry = 0 ∧ j.postData = none ∧ j.mimeBoundary = none) ∧
  (j.state = .SUCCESS ∨ j.state = .ERROR →
    j.accessTokenRequest = false ∧ j.uploadFetcher = false ∧ j.pendingTask = none) ∧
  (j.state ≠ .SUCCESS ∧ j.state ≠ .ERROR → j.retry + 1 ≤ kMaxAttempts) ∧
  j.retry ≤ kMaxAttempts ∧
  (j.accessTokenRequest = true → j.state = .ACQUIRING_TOKEN) ∧
  (j.uploadFetcher = true →
    j.state = .UPLOADING ∧ j.postData.isSome ∧ j.mimeBoundary.isSome) ∧
  (j.pendingTask.isSome → j.state ≠ .SUCCESS ∧ j.state ≠ .ERROR) ∧
  (j.postData.isSome → j.mimeBoundary.isSome ∧ j.dataSegments = []) ∧
  (j.mimeBoundary.isSome →
    j.postData.isSome ∨ j.state = .SUCCESS ∨ j.state = .ERROR)

/-- The event trace of the C2 scenario: `Start`, then four token-fetch
failures with the three scheduled retries fired in between. -/
def fourTokenFailures : List Event :=
  [.evStart, .evTokenFail, .evTimer [], .evTokenFail, .evTimer [], .evTokenFail,
   .evTimer [], .evTokenFail]

/-- The event trace of the C3 counterexample scenario: one segment, `Start`,
token success, HTTP 500 on the first POST. -/
def serverErrorTrace : List Event :=
  [.evAddSegment ('a' :: []) [] [] ('x' :: []), .evStart,
   .evTokenOk ('t' :: []) ('B' :: []), .evFetchDone true 500]

/-- Split a string at the first occurrence of `delim`, returning the part
before the occurrence and the part after it. -/
def splitOnFirst (delim : Str) : Str → Option (Str × Str)
  | [] => none
  | c :: cs =>
    if delim <+: (c :: cs) then some ([], (c :: cs).drop delim.length)
    else
      match splitOnFirst delim cs with
      | some p => some (c :: p.1, p.2)
      | none => none

/-- The fixed prefix of every part's `Content-Disposition` header line. -/
def dispositionPrefix : Str := "Content-Disposition: form-data; name=\"".toList

/-- The literal introducing the optional filename attribute. -/
def filenamePrefix : Str := "; filename=\"".toList

/-- Modelled from the spec: parse a part's `Content-Disposition` line
(`name`, optional `filename`), returning the name, the filename (empty when
the attribute is absent) and the rest of the input after the line's CRLF.
The C++ source contains no parser; this is the specification's standard
multipart parser used to state round-tripping. -/
def parseDisposition (s : Str) : Option (Str × Str × Str) :=
  if dispositionPrefix <+: s then
    match splitOnFirst ('"' :: []) (s.drop dispositionPrefix.length) with
    | some (nm, r) =>
      if crlf <+: r then some (nm, [], r.drop 2)
      else if filenamePrefix <+: r then
        match splitOnFirst ('"' :: []) (r.drop filenamePrefix.length) with
        | some (fn, r2) => if crlf <+: r2 then some (nm, fn, r2.drop 2) else none
        | none => none
      else none
    | none => none
  else none

/-- Modelled from the spec: parse the custom header lines of a part up to and
including the blank line that terminates the header block. -/
def parseHeaderBlock : Nat → Str → Option (List (Str × Str) × Str)
  | 0, _ => none
  | fuel + 1, s =>
    if crlf <+: s then some ([], s.drop 2)
    else
      match splitOnFirst crlf s with
      | some (line, rest) =>
        match splitOnFirst (':' :: ' ' :: []) line with
        | some kv =>
          match parseHeaderBlock fuel rest with
          | some p => some ((kv.1, kv.2) :: p.1, p.2)
          | none => none
        | none => none
      | none => none

/-- Modelled from the spec: parse the sequence of parts of a multipart body.
The input is positioned at a dash-boundary; the terminal delimiter
`--<boundary>--\r\n` must close the body exactly. -/
def parseParts (b : Str) : Nat → Str → Option (List DataSegment)
  | 0, _ => none
  | fuel + 1, s =>
    if dashBoundary b <+: s then
      let r := s.drop (dashBoundary b).length
      if r = '-' :: '-' :: crlf then some []
      else if crlf <+: r then
        match parseDisposition (r.drop 2) with
        | some (nm, fn, r2) =>
          match parseHeaderBlock (r2.length + 1) r2 with
          | some (hs, r3) =>
            match splitOnFirst (crlf ++ dashBoundary b) r3 with
            | some (dat, r4) =>
              match parseParts b fuel (dashBoundary b ++ r4) with
              | some segs => some (⟨nm, fn, hs, dat⟩ :: segs)
              | none => none
            | none => none
          | none => none
        | none => none
      else none
    else none

/-- Modelled from the spec: parse a complete multipart body produced with
boundary `b` back into its data segments. -/
def parseMultipart (b body : Str) : Option (List DataSegment) :=
  parseParts b (body.length + 1) body

/-- Number of start positions at which `delim` occurs in a string
(occurrences may overlap; for nonempty `delim` this is the number of
occurrences of `delim` as a substring). -/
def occCount (delim : Str) : Str → Nat
  | [] => 0
  | c :: cs => (if delim <+: (c :: cs) then 1 else 0) + occCount delim cs

/-- No occurrence of `delim` starts strictly inside `X` when `X` is followed
by `Y`: for every nonempty suffix `d₂` of `X`, `delim` is not a prefix of
`d₂ ++ Y`. -/
def NoOcc (delim X Y : Str) : Prop :=
  ∀ d₁ d₂, X = d₁ ++ d₂ → d₂ ≠ [] → ¬ delim <+: (d₂ ++ Y)

/-- The side conditions on one segment under which the assembled body can be
parsed back: no CR and no double quote in the name and filename, header keys
free of CR and colons, header values free of CR, header lines and the data
not containing (or starting at) the boundary delimiter, and the header map
in its `std::map` normal form (sorted by key). -/
def goodSegment (b : Str) (s : DataSegment) : Prop :=
  '\r' ∉ s.name ∧ '"' ∉ s.name ∧
  '\r' ∉ s.filename ∧ '"' ∉ s.filename ∧
  (∀ e ∈ s.headerEntries,
    '\r' ∉ e.1 ∧ ':' ∉ e.1 ∧ '\r' ∉ e.2 ∧
    ¬ dashBoundary b <+: (e.1 ++ ':' :: ' ' :: e.2)) ∧
  List.Sorted keyLe s.headerEntries ∧
  ¬ (crlf ++ dashBoundary b) <:+: (crlf ++ s.data)

/-- The boundary of the C1 counterexample. -/
def cexBoundary : Str := 'B' :: []

/-- The C1 counterexample segment: name `a`, no filename, no custom headers,
and data consisting of the five bytes `\r\n--B` (the boundary delimiter). -/
def cexSegment : DataSegment :=
  ⟨'a' :: [], [], [], '\r' :: '\n' :: '-' :: '-' :: 'B' :: []⟩

/-! ## Basic lemmas about the duplicate-name scan -/

theorem hasDupNamesAux_eq_false_iff (segs : List DataSegment) :
    ∀ seen, hasDupNamesAux seen segs = false ↔
      ((segs.map DataSegment.name).Nodup ∧
        ∀ n ∈ segs.map DataSegment.name, n ∉ seen) := by
  induction segs with
  | nil => intro seen; simp [hasDupNamesAux]
  | cons s rest ih =>
    intro seen
    by_cases hmem : s.name ∈ seen
    · simp only [hasDupNamesAux, if_pos hmem]
      simp only [List.map_cons, List.nodup_cons, List.mem_cons]
      constructor
      · intro h; exact absurd h (by simp)
      · rintro ⟨-, hall⟩
        exact absurd (hall s.name (Or.inl rfl)) (by simp [hmem])
    · simp only [hasDupNamesAux, if_neg hmem]
      rw [ih (s.name :: seen)]
      simp only [List.map_cons, List.nodup_cons, List.mem_cons]
      constructor
      · rintro ⟨hnd, hall⟩
        refine ⟨⟨fun hin => ?_, hnd⟩, ?_⟩
        · exact (hall _ hin) (Or.inl rfl)
        · rintro n (rfl | hn)
          · exact hmem
          · intro hseen; exact (hall n hn) (Or.inr hseen)
      · rintro ⟨⟨hs, hnd⟩, hall⟩
        refine ⟨hnd, fun n hn hseen => ?_⟩
        rcases hseen with rfl | hseen2
        · exact hs hn
        · exact (hall n (Or.inr hn)) hseen2

theorem hasDupNames_iff (segs : List DataSegment) :
    hasDupNames segs = true ↔ ¬ (segs.map DataSegment.name).Nodup := by
  rw [← Bool.not_eq_false, not_iff_not, hasDupNames, hasDupNamesAux_eq_false_iff]
  simp

/-! ## The reachable-state invariant -/

theorem inv_initialJob : Inv initialJob := by
  simp [Inv, initialJob, kMaxAttempts]

theorem inv_step (j : Job) (e : Event) (h : Inv j) : Inv (step j e).1 := by
  obtain ⟨h1, h2, h3, h4, h5, h6, h7, h8, h9, h10, h11, h12, h13⟩ := h
  have h7 : j.state ≠ .SUCCESS ∧ j.state ≠ .ERROR → j.retry + 1 ≤ 4 := h7
  have h8 : j.retry ≤ 4 := h8
  cases e with
  | evStart =>
    by_cases hI : j.state = .IDLE
    · obtain ⟨ha, hb, hc, hd, he, hf⟩ := h5 hI
      simp [step, start, hI, requestAccessToken, Inv, kMaxAttempts, ha, hb, hc,
        hd, he, hf]
    · simp only [step, start, if_pos hI]
      exact ⟨h1, h2, h3, h4, h5, h6, h7, h8, h9, h10, h11, h12, h13⟩
  | evAddSegment n f hs d =>
    by_cases hI : j.state = .IDLE
    · obtain ⟨ha, hb, hc, hd, he, hf⟩ := h5 hI
      simp [step, addDataSegment, hI, Inv, kMaxAttempts, ha, hb, hc, hd, he, hf]
    · simp only [step, addDataSegment, if_pos hI]
      exact ⟨h1, h2, h3, h4, h5, h6, h7, h8, h9, h10, h11, h12, h13⟩
  | evTokenOk tok b =>
    by_cases hreq : j.accessTokenRequest = true
    · obtain ⟨hfetch, hpend⟩ := h1 hreq
      have hstate := h9 hreq
      have hretry : j.retry + 1 ≤ 4 := h7 (by simp [hstate])
      by_cases hbp : j.mimeBoundary.isSome ∧ j.postData.isSome
      · obtain ⟨hmb2, hseg⟩ := h12 hbp.2
        simp [step, hreq, onGetTokenSuccess, startUpload, setUpMultipart, hbp,
          createAndStartURLFetcher, Inv, kMaxAttempts, hfetch, hpend, hstate,
          hseg, hbp.1, hbp.2]
        omega
      · by_cases hdup : hasDupNames j.dataSegments = true
        · simp [step, hreq, onGetTokenSuccess, startUpload, setUpMultipart, hbp,
            hdup, Inv, kMaxAttempts, hfetch, hpend, hstate]
          exact ⟨by omega, h12⟩
        · simp [step, hreq, onGetTokenSuccess, startUpload, setUpMultipart, hbp,
            hdup, createAndStartURLFetcher, Inv, kMaxAttempts, hfetch, hpend,
            hstate]
          omega
    · simp only [step, if_neg hreq]
      exact ⟨h1, h2, h3, h4, h5, h6, h7, h8, h9, h10, h11, h12, h13⟩
  | evTokenFail =>
    by_cases hreq : j.accessTokenRequest = true
    · obtain ⟨hfetch, hpend⟩ := h1 hreq
      have hstate := h9 hreq
      have hretry : j.retry + 1 ≤ 4 := h7 (by simp [hstate])
      have hmbpd : j.mimeBoundary.isSome = true → j.postData.isSome = true :=
        fun hmb => (h13 hmb).resolve_right (fun hc => by
          rcases hc with hc | hc <;> simp [hstate] at hc)
      by_cases hmax : 4 ≤ j.retry + 1
      · simp [step, hreq, onGetTokenFailure, handleError, hmax, Inv, kMaxAttempts,
          hfetch, hpend, hstate]
        omega
      · simp [step, hreq, onGetTokenFailure, handleError, hmax, Inv, kMaxAttempts,
          hfetch, hpend, hstate]
        refine ⟨by omega, by omega, ?_, ?_⟩
        · intro hpd; exact h12 hpd
        · intro hmb; exact hmbpd hmb
    · simp only [step, if_neg hreq]
      exact ⟨h1, h2, h3, h4, h5, h6, h7, h8, h9, h10, h11, h12, h13⟩
  | evTimer b =>
    match hpt : j.pendingTask with
    | none =>
      simp only [step, hpt]
      exact ⟨h1, h2, h3, h4, h5, h6, h7, h8, h9, h10, h11, h12, h13⟩
    | some .requestTokenTask =>
      obtain ⟨hreq, hfetch⟩ := h3 (by simp [hpt])
      obtain ⟨hns, hne⟩ := h11 (by simp [hpt])
      have hretry : j.retry + 1 ≤ 4 := h7 ⟨hns, hne⟩
      have hmbpd : j.mimeBoundary.isSome = true → j.postData.isSome = true :=
        fun hmb => (h13 hmb).resolve_right (fun hc => hc.elim hns hne)
      simp [step, hpt, requestAccessToken, Inv, kMaxAttempts, hreq, hfetch]
      refine ⟨by omega, by omega, ?_, ?_⟩
      · intro hpd; exact h12 hpd
      · intro hmb; exact hmbpd hmb
    | some .startUploadTask =>
      obtain ⟨hreq, hfetch⟩ := h3 (by simp [hpt])
      obtain ⟨hns, hne⟩ := h11 (by simp [hpt])
      have hretry : j.retry + 1 ≤ 4 := h7 ⟨hns, hne⟩
      by_cases hbp : j.mimeBoundary.isSome ∧ j.postData.isSome
      · obtain ⟨hmb2, hseg⟩ := h12 hbp.2
        simp [step, hpt, startUpload, setUpMultipart, hbp,
          createAndStartURLFetcher, Inv, kMaxAttempts, hreq, hfetch, hseg,
          hbp.1, hbp.2]
        omega
      · by_cases hdup : hasDupNames j.dataSegments = true
        · simp [step, hpt, startUpload, setUpMultipart, hbp, hdup, Inv,
            kMaxAttempts, hreq, hfetch]
          exact ⟨by omega, h12⟩
        · simp [step, hpt, startUpload, setUpMultipart, hbp, hdup,
            createAndStartURLFetcher, Inv, kMaxAttempts, hreq, hfetch]
          omega
  | evFetchDone ok code =>
    by_cases hfet : j.uploadFetcher = true
    · obtain ⟨hreq, hpend⟩ := h2 hfet
      obtain ⟨hstate, hpd, hmb⟩ := h10 hfet
      obtain ⟨hmb2, hseg⟩ := h12 hpd
      have hretry : j.retry + 1 ≤ 4 := h7 (by simp [hstate])
      by_cases hok : ok = false
      · by_cases hmax : 4 ≤ j.retry + 1
        · simp [step, hfet, onURLFetchComplete, hok, handleError, hmax, Inv,
            kMaxAttempts, hreq, hpend, hstate]
          omega
        · simp [step, hfet, onURLFetchComplete, hok, handleError, hmax, Inv,
            kMaxAttempts, hreq, hpend, hstate, hpd, hmb, hseg]
          omega
      · by_cases h200 : code = 200
        · simp [step, hfet, onURLFetchComplete, hok, h200, Inv, kMaxAttempts,
            hreq, hpend, hstate, hseg]
          omega
        · by_cases hmax : 4 ≤ j.retry + 1
          · by_cases h401 : code = 401
            · simp [step, hfet, onURLFetchComplete, hok, h200, h401, handleError,
                hmax, Inv, kMaxAttempts, hreq, hpend, hstate]
              omega
            · simp [step, hfet, onURLFetchComplete, hok, h200, h401, handleError,
                hmax, Inv, kMaxAttempts, hreq, hpend, hstate]
              omega
          · by_cases h401 : code = 401
            · simp [step, hfet, onURLFetchComplete, hok, h200, h401, handleError,
                hmax, Inv, kMaxAttempts, hreq, hpend, hstate, hpd, hmb, hseg]
              omega
            · simp [step, hfet, onURLFetchComplete, hok, h200, h401, handleError,
                hmax, Inv, kMaxAttempts, hreq, hpend, hstate, hpd, hmb, hseg]
              omega
    · simp only [step, if_neg hfet]
      exact ⟨h1, h2, h3, h4, h5, h6, h7, h8, h9, h10, h11, h12, h13⟩

theorem inv_run (evs : List Event) : ∀ j, Inv j → Inv (run j evs).1 := by
  induction evs with
  | nil => intro j h; exact h
  | cons e es ih => intro j h; exact ih _ (inv_step j e h)

/-! ## Claim theorems: the retry state machine -/

/-- C8: for every job in a state other than IDLE, `AddDataSegment` is a
no-op leaving the whole job (state, segment list, in-flight upload)
unchanged, and `Start` is likewise a no-op with no effects; in particular a
job in SUCCESS or ERROR (which are not IDLE) can never be restarted. -/
theorem addDataSegment_and_start_noop_outside_idle :
    (∀ (j : Job) n f hs d, j.state ≠ .IDLE → addDataSegment n f hs d j = j) ∧
    (∀ j : Job, j.state ≠ .IDLE → start j = (j, [])) ∧
    (∀ j : Job, j.state = .SUCCESS ∨ j.state = .ERROR →
      (∀ n f hs d, addDataSegment n f hs d j = j) ∧ start j = (j, [])) := by
  refine ⟨fun j n f hs d hI => ?_, fun j hI => ?_, fun j hT => ?_⟩
  · simp [addDataSegment, hI]
  · simp [start, hI]
  · have hI : j.state ≠ .IDLE := by rcases hT with hT | hT <;> simp [hT]
    exact ⟨fun n f hs d => by simp [addDataSegment, hI], by simp [start, hI]⟩

/-- Witness for `addDataSegment_and_start_noop_outside_idle` at a concrete
job in state SUCCESS. -/
theorem addDataSegment_and_start_noop_outside_idle_witness :
    addDataSegment [] [] [] [] { initialJob with state := .SUCCESS } =
      { initialJob with state := .SUCCESS } :=
  addDataSegment_and_start_noop_outside_idle.1
    { initialJob with state := .SUCCESS } [] [] [] [] (by decide)

/-- C6: for a completed HTTP response delivered to an uploading job, the job
reaches SUCCESS exactly when the response code is 200 (no other 2xx is
accepted); on 200 the token is cleared, the body is discarded and the only
effect is the delegate's success callback; every non-200 non-401 response is
handled as a SERVER_ERROR. -/
theorem fetchComplete_success_iff_http200 :
    ∀ (j : Job) code, j.state = .UPLOADING →
      (((onURLFetchComplete true code j).1.state = .SUCCESS) ↔ code = 200) ∧
      (code = 200 →
        (onURLFetchComplete true code j).1.accessToken = [] ∧
        (onURLFetchComplete true code j).1.postData = none ∧
        (onURLFetchComplete true code j).2 = [.onSuccess]) ∧
      (code ≠ 200 → code ≠ 401 →
        onURLFetchComplete true code j = handleError .SERVER_ERROR j) := by
  intro j code hU
  by_cases h200 : code = 200
  · subst h200; simp [onURLFetchComplete]
  · by_cases h401 : code = 401
    · subst h401
      simp [onURLFetchComplete, handleError, h200]
      split <;> simp [hU]
    · simp [onURLFetchComplete, h200, h401, handleError]
      split
      · simp
      · simp [hU]

/-- Witness for `fetchComplete_success_iff_http200` at a concrete uploading
job and response code 500. -/
theorem fetchComplete_success_iff_http200_witness :
    ((onURLFetchComplete true 500 { initialJob with state := .UPLOADING }).1.state
        = .SUCCESS ↔ (500 : Nat) = 200) :=
  (fetchComplete_success_iff_http200 { initialJob with state := .UPLOADING } 500
    (by decide)).1

/-- C4: whenever two segments share a name (and the body has not been
assembled before, which is the only reachable situation with segments
present), `StartUpload` fails deterministically: the job goes straight to
ERROR, no boundary is generated, no body byte is written, the retry counter
is not incremented, nothing is scheduled and no delegate callback is
invoked; the equivalence with the claim's wording (two segments share a
name) is recorded alongside. -/
theorem duplicate_names_fail_assembly :
    (∀ segs, hasDupNames segs = true ↔ ¬ (segs.map DataSegment.name).Nodup) ∧
    (∀ (j : Job) b, hasDupNames j.dataSegments = true →
      ¬ (j.mimeBoundary.isSome ∧ j.postData.isSome) →
      (startUpload b j).1.state = .ERROR ∧
      (startUpload b j).2 = [] ∧
      (startUpload b j).1.retry = j.retry ∧
      (startUpload b j).1.mimeBoundary = j.mimeBoundary ∧
      (startUpload b j).1.postData = j.postData ∧
      (startUpload b j).1.pendingTask = j.pendingTask ∧
      (startUpload b j).1.dataSegments = j.dataSegments) := by
  refine ⟨hasDupNames_iff, fun j b hdup hbp => ?_⟩
  simp [startUpload, setUpMultipart, hbp, hdup]

/-- Witness for `duplicate_names_fail_assembly` at a job holding two
segments named `a`. -/
theorem duplicate_names_fail_assembly_witness :
    (startUpload []
      { initialJob with
          dataSegments := [⟨('a' :: []), [], [], []⟩, ⟨('a' :: []), [], [], []⟩] }).1.state
      = .ERROR :=
  ((duplicate_names_fail_assembly.2
    { initialJob with
        dataSegments := [⟨('a' :: []), [], [], []⟩, ⟨('a' :: []), [], [], []⟩] }
    [] (by decide) (by decide)).1)

/-- C5: on an authentication error with attempts remaining, the job
invalidates the cached token with the token provider (passing it the cached
token), clears its local token, schedules the delayed retry, and when the
timer fires it requests a fresh token; once the fresh token arrives the POST
is retried carrying the new token and the cached body. -/
theorem authError_invalidates_token_then_refetches :
    ∀ (j : Job) m bb, j.retry + 1 < kMaxAttempts →
      j.mimeBoundary = some m → j.postData = some bb →
      ((handleError .AUTHENTICATION_ERROR j).1.accessToken = [] ∧
       (handleError .AUTHENTICATION_ERROR j).1.pendingTask = some .requestTokenTask ∧
       (handleError .AUTHENTICATION_ERROR j).2 =
         [.tokenInvalidated j.accessToken, .delayedTask .requestTokenTask]) ∧
      (∀ b,
        (step (handleError .AUTHENTICATION_ERROR j).1 (.evTimer b)).2 =
          [.tokenRequested] ∧
        (step (handleError .AUTHENTICATION_ERROR j).1 (.evTimer b)).1.state =
          .ACQUIRING_TOKEN ∧
        (∀ t,
          (step (step (handleError .AUTHENTICATION_ERROR j).1 (.evTimer b)).1
              (.evTokenOk t b)).2 = [.fetcherStarted t m bb] ∧
          (step (step (handleError .AUTHENTICATION_ERROR j).1 (.evTimer b)).1
              (.evTokenOk t b)).1.accessToken = t ∧
          (step (step (handleError .AUTHENTICATION_ERROR j).1 (.evTimer b)).1
              (.evTokenOk t b)).1.state = .UPLOADING)) := by
  intro j m bb hretry hmb hpd
  have hmax : ¬ 4 ≤ j.retry + 1 := by
    have : j.retry + 1 < 4 := hretry
    omega
  refine ⟨by simp [handleError, kMaxAttempts, hmax], fun b => ?_⟩
  refine ⟨by simp [handleError, kMaxAttempts, hmax, step, requestAccessToken],
    by simp [handleError, kMaxAttempts, hmax, step, requestAccessToken],
    fun t => ?_⟩
  simp [handleError, kMaxAttempts, hmax, step, requestAccessToken,
    onGetTokenSuccess, startUpload, setUpMultipart, hmb, hpd,
    createAndStartURLFetcher]

/-- Witness for `authError_invalidates_token_then_refetches` at a concrete
job holding a cached boundary and body. -/
theorem authError_invalidates_token_then_refetches_witness :
    (handleError .AUTHENTICATION_ERROR
      { initialJob with mimeBoundary := some [], postData := some [] }).1.accessToken
      = [] :=
  (authError_invalidates_token_then_refetches
    { initialJob with mimeBoundary := some [], postData := some [] }
    [] [] (by decide) (by decide) (by decide)).1.1

/-- C3 counterexample: after a non-authentication error (HTTP 500 on the
first attempt) with attempts remaining, the job's state IS set to
ACQUIRING_TOKEN (upload_job_impl.cc:351), refuting the claim that
`state = ACQUIRING_TOKEN` is not set on this path. -/
theorem nonAuthRetry_sets_acquiring_token :
    (run initialJob serverErrorTrace).1.state = .ACQUIRING_TOKEN ∧
    (run initialJob serverErrorTrace).2.count (.delayedTask .startUploadTask) = 1 :=
  ⟨rfl, rfl⟩

/-- C3 (amended): on a non-authentication error with attempts remaining the
job sets state to ACQUIRING_TOKEN (but performs no token fetch) and
schedules a delayed re-entry into the upload path; the delayed re-entry
re-issues the POST with the cached access token and the already-assembled
body, with no reassembly (boundary and body unchanged even though the
generator would offer a fresh boundary) and no new token request. -/
theorem nonAuthRetry_reuses_token_and_body :
    ∀ (j : Job) e, e ≠ .AUTHENTICATION_ERROR → j.retry + 1 < kMaxAttempts →
      ∀ m bb, j.mimeBoundary = some m → j.postData = some bb →
      ((handleError e j).1.state = .ACQUIRING_TOKEN ∧
       (handleError e j).1.accessToken = j.accessToken ∧
       (handleError e j).1.mimeBoundary = some m ∧
       (handleError e j).1.postData = some bb ∧
       (handleError e j).2 = [.delayedTask .startUploadTask]) ∧
      (∀ b,
        (step (handleError e j).1 (.evTimer b)).1.state = .UPLOADING ∧
        (step (handleError e j).1 (.evTimer b)).1.mimeBoundary = some m ∧
        (step (handleError e j).1 (.evTimer b)).1.postData = some bb ∧
        (step (handleError e j).1 (.evTimer b)).2 =
          [.fetcherStarted j.accessToken m bb]) := by
  intro j e he hretry m bb hmb hpd
  have hmax : ¬ 4 ≤ j.retry + 1 := by
    have : j.retry + 1 < 4 := hretry
    omega
  constructor
  · simp [handleError, kMaxAttempts, hmax, he]
    exact ⟨hmb, hpd⟩
  · intro b
    simp [handleError, kMaxAttempts, hmax, he, step, startUpload, setUpMultipart,
      hmb, hpd, createAndStartURLFetcher]

/-- Witness for `nonAuthRetry_reuses_token_and_body` at a concrete job. -/
theorem nonAuthRetry_reuses_token_and_body_witness :
    (handleError .NETWORK_ERROR
      { initialJob with mimeBoundary := some [], postData := some [] }).1.state
      = .ACQUIRING_TOKEN :=
  (nonAuthRetry_reuses_token_and_body
    { initialJob with mimeBoundary := some [], postData := some [] }
    .NETWORK_ERROR (by decide) (by decide) [] [] (by decide) (by decide)).1.1

/-- C2: `kMaxAttempts` is 4; every `HandleError` call increments the retry
counter exactly once regardless of error kind; when the incremented counter
reaches the bound the failure is terminal (state ERROR, a single
`OnFailure` with that kind); the retry counter never exceeds the bound on
any event trace from a fresh job; and in the concrete scenario of four
token-fetch failures the job ends in ERROR having delivered
`OnFailure(AUTHENTICATION_ERROR)` exactly once and `OnSuccess` never. -/
theorem four_attempt_bound :
    kMaxAttempts = 4 ∧
    (∀ (j : Job) e, (handleError e j).1.retry = j.retry + 1) ∧
    (∀ (j : Job) e, j.retry + 1 = kMaxAttempts →
      (handleError e j).1.state = .ERROR ∧ (handleError e j).2 = [.onFailure e]) ∧
    (∀ evs, (run initialJob evs).1.retry ≤ kMaxAttempts) ∧
    ((run initialJob fourTokenFailures).1.state = .ERROR ∧
     (run initialJob fourTokenFailures).2.count (.onFailure .AUTHENTICATION_ERROR) = 1 ∧
     (run initialJob fourTokenFailures).2.count .onSuccess = 0) := by
  refine ⟨rfl, fun j e => ?_, fun j e h4 => ?_, fun evs => ?_, rfl, rfl, rfl⟩
  · simp only [handleError]
    split
    · rfl
    · split <;> rfl
  · have hmax : kMaxAttempts ≤ j.retry + 1 := le_of_eq h4.symm
    simp [handleError, hmax]
  · exact (inv_run evs initialJob inv_initialJob).2.2.2.2.2.2.2.1

/-- Witness for `four_attempt_bound` (third conjunct) at a concrete job with
three failed attempts already recorded. -/
theorem four_attempt_bound_witness :
    (handleError .SERVER_ERROR { initialJob with retry := 3 }).1.state = .ERROR :=
  (four_attempt_bound.2.2.1 { initialJob with retry := 3 } .SERVER_ERROR rfl).1

/-- Helper: a job in a terminal state with the invariant accepts no event:
every step is the identity and emits nothing. -/
theorem step_terminal_quiescent (j : Job) (e : Event) (h : Inv j)
    (ht : j.state = .SUCCESS ∨ j.state = .ERROR) : step j e = (j, []) := by
  obtain ⟨h1, h2, h3, h4, h5, h6, h7, h8, h9, h10, h11, h12, h13⟩ := h
  obtain ⟨hreq, hfet, hpend⟩ := h6 ht
  have hI : j.state ≠ .IDLE := by rcases ht with ht | ht <;> simp [ht]
  cases e with
  | evStart => simp [step, start, hI]
  | evAddSegment n f hs d => simp [step, addDataSegment, hI]
  | evTokenOk tok b => simp [step, hreq]
  | evTokenFail => simp [step, hreq]
  | evTimer b => simp [step, hpend]
  | evFetchDone ok code => simp [step, hfet]

/-- Helper: a single step emits at most one delegate callback, and when it
emits one the step lands in a terminal state. -/
theorem step_delegate_count (j : Job) (e : Event) (h : Inv j) :
    (step j e).2.countP isDelegateCallback ≤ 1 ∧
    ((step j e).2.countP isDelegateCallback = 1 →
      (step j e).1.state = .SUCCESS ∨ (step j e).1.state = .ERROR) := by
  obtain ⟨h1, h2, h3, h4, h5, h6, h7, h8, h9, h10, h11, h12, h13⟩ := h
  cases e with
  | evStart =>
    by_cases hI : j.state = .IDLE <;>
      simp [step, start, hI, requestAccessToken, isDelegateCallback]
  | evAddSegment n f hs d => simp [step, isDelegateCallback]
  | evTokenOk tok b =>
    by_cases hreq : j.accessTokenRequest = true
    · by_cases hbp : j.mimeBoundary.isSome ∧ j.postData.isSome
      · simp [step, hreq, onGetTokenSuccess, startUpload, setUpMultipart, hbp,
          createAndStartURLFetcher, isDelegateCallback]
      · by_cases hdup : hasDupNames j.dataSegments = true <;>
          simp [step, hreq, onGetTokenSuccess, startUpload, setUpMultipart, hbp,
            hdup, createAndStartURLFetcher, isDelegateCallback]
    · simp [step, hreq, isDelegateCallback]
  | evTokenFail =>
    by_cases hreq : j.accessTokenRequest = true
    · by_cases hmax : 4 ≤ j.retry + 1 <;>
        simp [step, hreq, onGetTokenFailure, handleError, kMaxAttempts, hmax,
          isDelegateCallback]
    · simp [step, hreq, isDelegateCallback]
  | evTimer b =>
    match hpt : j.pendingTask with
    | none => simp [step, hpt, isDelegateCallback]
    | some .requestTokenTask =>
      simp [step, hpt, requestAccessToken, isDelegateCallback]
    | some .startUploadTask =>
      by_cases hbp : j.mimeBoundary.isSome ∧ j.postData.isSome
      · simp [step, hpt, startUpload, setUpMultipart, hbp,
          createAndStartURLFetcher, isDelegateCallback]
      · by_cases hdup : hasDupNames j.dataSegments = true <;>
          simp [step, hpt, startUpload, setUpMultipart, hbp, hdup,
            createAndStartURLFetcher, isDelegateCallback]
  | evFetchDone ok code =>
    by_cases hfet : j.uploadFetcher = true
    · by_cases hok : ok = false
      · by_cases hmax : 4 ≤ j.retry + 1 <;>
          simp [step, hfet, onURLFetchComplete, hok, handleError, kMaxAttempts,
            hmax, isDelegateCallback]
      · by_cases h200 : code = 200
        · simp [step, hfet, onURLFetchComplete, hok, h200, isDelegateCallback]
        · by_cases h401 : code = 401 <;> by_cases hmax : 4 ≤ j.retry + 1 <;>
            simp [step, hfet, onURLFetchComplete, hok, h200, h401, handleError,
              kMaxAttempts, hmax, isDelegateCallback]
    · simp [step, hfet, isDelegateCallback]

/-- Helper: over any event trace, a job satisfying the invariant delivers at
most one delegate callback in total, and none at all if it is already
terminal. -/
theorem run_delegate_count (evs : List Event) : ∀ (j : Job), Inv j →
    (run j evs).2.countP isDelegateCallback ≤ 1 ∧
    ((j.state = .SUCCESS ∨ j.state = .ERROR) →
      (run j evs).2.countP isDelegateCallback = 0) := by
  induction evs with
  | nil => intro j h; simp [run]
  | cons e es ih =>
    intro j h
    have hstep := step_delegate_count j e h
    have hinv : Inv (step j e).1 := inv_step j e h
    have hrec := ih (step j e).1 hinv
    have hsum : (run j (e :: es)).2.countP isDelegateCallback =
        (step j e).2.countP isDelegateCallback +
        (run (step j e).1 es).2.countP isDelegateCallback := by
      simp [run, List.countP_append]
    constructor
    · rcases Nat.lt_or_ge ((step j e).2.countP isDelegateCallback) 1 with hlt | hge
      · have hc2 := hrec.1
        omega
      · have hterm := hstep.2 (Nat.le_antisymm hstep.1 hge)
        have hc2 := hrec.2 hterm
        omega
    · intro ht
      have hq := step_terminal_quiescent j e h ht
      have hq1 : (step j e).1 = j := by rw [hq]
      have hq2 : (step j e).2 = [] := by rw [hq]
      have hc2 : (run j es).2.countP isDelegateCallback = 0 := (ih j h).2 ht
      rw [hsum, hq2, hq1, hc2]
      simp

/-- Helper: `countP` is monotone along a pointwise implication between the
predicates. -/
theorem countP_le_of_imp (p q : Effect → Bool)
    (hpq : ∀ x, p x = true → q x = true) :
    ∀ l : List Effect, l.countP p ≤ l.countP q := by
  intro l
  induction l with
  | nil => simp
  | cons x xs ih =>
    by_cases hx : p x = true
    · rw [List.countP_cons_of_pos _ _ hx, List.countP_cons_of_pos _ _ (hpq x hx)]
      omega
    · rw [List.countP_cons_of_neg _ _ (by simpa using hx)]
      have : xs.countP q ≤ (x :: xs).countP q := by
        rw [List.countP_cons]
        omega
      omega

/-- Helper: from a terminal state the whole run is the identity and emits
nothing. -/
theorem run_terminal_quiescent (evs : List Event) : ∀ (j : Job), Inv j →
    (j.state = .SUCCESS ∨ j.state = .ERROR) → run j evs = (j, []) := by
  induction evs with
  | nil => intro j _ _; rfl
  | cons e es ih =>
    intro j h ht
    have hq := step_terminal_quiescent j e h
    simp only [run, hq ht]
    rw [ih j h ht]
    rfl

/-- Helper: once the boundary is stored it never changes, and once the body
is stored it only disappears at a terminal transition. -/
theorem step_body_stable (j : Job) (e : Event) (h : Inv j) :
    (∀ m, j.mimeBoundary = some m → (step j e).1.mimeBoundary = some m) ∧
    (∀ bb, j.postData = some bb →
      (step j e).1.postData = some bb ∨ (step j e).1.state = .SUCCESS ∨
      (step j e).1.state = .ERROR) := by
  obtain ⟨h1, h2, h3, h4, h5, h6, h7, h8, h9, h10, h11, h12, h13⟩ := h
  cases e with
  | evStart =>
    by_cases hI : j.state = .IDLE
    · obtain ⟨-, -, -, -, hpd0, hmb0⟩ := h5 hI
      constructor
      · intro m hm; rw [hmb0] at hm; exact absurd hm (by simp)
      · intro bb hpd; rw [hpd0] at hpd; exact absurd hpd (by simp)
    · have hid : step j .evStart = (j, []) := by simp [step, start, hI]
      rw [hid]; exact ⟨fun m hm => hm, fun bb hb => Or.inl hb⟩
  | evAddSegment n f hs d =>
    by_cases hI : j.state = .IDLE
    · simp only [step, addDataSegment, if_neg (by simp [hI] : ¬ j.state ≠ .IDLE)]
      exact ⟨fun m hm => hm, fun bb hb => Or.inl hb⟩
    · simp only [step, addDataSegment, if_pos hI]
      exact ⟨fun m hm => hm, fun bb hb => Or.inl hb⟩
  | evTokenOk tok b =>
    by_cases hreq : j.accessTokenRequest = true
    · have hstate := h9 hreq
      constructor
      · intro m hm
        have hpds : j.postData.isSome = true := by
          rcases h13 (by simp [hm]) with hpd | ht | ht
          · exact hpd
          · simp [hstate] at ht
          · simp [hstate] at ht
        simp [step, hreq, onGetTokenSuccess, startUpload, setUpMultipart,
          createAndStartURLFetcher, hm, hpds]
      · intro bb hpd
        have hmbs : j.mimeBoundary.isSome = true := (h12 (by simp [hpd])).1
        left
        simp [step, hreq, onGetTokenSuccess, startUpload, setUpMultipart,
          createAndStartURLFetcher, hpd, hmbs]
    · simp only [step, if_neg hreq]
      exact ⟨fun m hm => hm, fun bb hb => Or.inl hb⟩
  | evTokenFail =>
    by_cases hreq : j.accessTokenRequest = true
    · by_cases hmax : 4 ≤ j.retry + 1
      · constructor
        · intro m hm
          simp [step, hreq, onGetTokenFailure, handleError, kMaxAttempts, hmax, hm]
        · intro bb hpd
          right; right
          simp [step, hreq, onGetTokenFailure, handleError, kMaxAttempts, hmax]
      · constructor
        · intro m hm
          simp [step, hreq, onGetTokenFailure, handleError, kMaxAttempts, hmax, hm]
        · intro bb hpd
          left
          simp [step, hreq, onGetTokenFailure, handleError, kMaxAttempts, hmax, hpd]
    · simp only [step, if_neg hreq]
      exact ⟨fun m hm => hm, fun bb hb => Or.inl hb⟩
  | evTimer b =>
    match hpt : j.pendingTask with
    | none =>
      simp only [step, hpt]
      exact ⟨fun m hm => hm, fun bb hb => Or.inl hb⟩
    | some .requestTokenTask =>
      constructor
      · intro m hm; simp [step, hpt, requestAccessToken, hm]
      · intro bb hpd; left; simp [step, hpt, requestAccessToken, hpd]
    | some .startUploadTask =>
      obtain ⟨hns, hne⟩ := h11 (by simp [hpt])
      constructor
      · intro m hm
        have hpds : j.postData.isSome = true := by
          rcases h13 (by simp [hm]) with hpd | ht | ht
          · exact hpd
          · exact absurd ht hns
          · exact absurd ht hne
        simp [step, hpt, startUpload, setUpMultipart, createAndStartURLFetcher,
          hm, hpds]
      · intro bb hpd
        have hmbs : j.mimeBoundary.isSome = true := (h12 (by simp [hpd])).1
        left
        simp [step, hpt, startUpload, setUpMultipart, createAndStartURLFetcher,
          hpd, hmbs]
  | evFetchDone ok code =>
    by_cases hfet : j.uploadFetcher = true
    · have hERR :
        ∀ ec, ((handleError ec j).1.mimeBoundary = j.mimeBoundary) ∧
          ∀ bb, j.postData = some bb →
            (handleError ec j).1.postData = some bb ∨
            (handleError ec j).1.state = .ERROR := by
        intro ec
        by_cases hmax : 4 ≤ j.retry + 1
        · constructor
          · simp [handleError, kMaxAttempts, hmax]
          · intro bb hpd; right; simp [handleError, kMaxAttempts, hmax]
        · by_cases hec : ec = .AUTHENTICATION_ERROR
          · constructor
            · simp [handleError, kMaxAttempts, hmax, hec]
            · intro bb hpd; left; simp [handleError, kMaxAttempts, hmax, hec, hpd]
          · constructor
            · simp [handleError, kMaxAttempts, hmax, hec]
            · intro bb hpd; left; simp [handleError, kMaxAttempts, hmax, hec, hpd]
      by_cases hok : ok = false
      · have hred : step j (.evFetchDone ok code) =
            handleError .NETWORK_ERROR j := by
          simp [step, hfet, onURLFetchComplete, hok]
        rw [hred]
        exact ⟨fun m hm => hm ▸ (hERR .NETWORK_ERROR).1,
          fun bb hb => ((hERR .NETWORK_ERROR).2 bb hb).imp id Or.inr⟩
      · by_cases h200 : code = 200
        · constructor
          · intro m hm; simp [step, hfet, onURLFetchComplete, hok, h200, hm]
          · intro bb hpd; right; left
            simp [step, hfet, onURLFetchComplete, hok, h200]
        · by_cases h401 : code = 401
          · have hred : step j (.evFetchDone ok code) =
                handleError .AUTHENTICATION_ERROR j := by
              simp [step, hfet, onURLFetchComplete, hok, h200, h401]
            rw [hred]
            exact ⟨fun m hm => hm ▸ (hERR .AUTHENTICATION_ERROR).1,
              fun bb hb => ((hERR .AUTHENTICATION_ERROR).2 bb hb).imp id Or.inr⟩
          · have hred : step j (.evFetchDone ok code) =
                handleError .SERVER_ERROR j := by
              simp [step, hfet, onURLFetchComplete, hok, h200, h401]
            rw [hred]
            exact ⟨fun m hm => hm ▸ (hERR .SERVER_ERROR).1,
              fun bb hb => ((hERR .SERVER_ERROR).2 bb hb).imp id Or.inr⟩
    · simp only [step, if_neg hfet]
      exact ⟨fun m hm => hm, fun bb hb => Or.inl hb⟩

/-- C9: each delegate callback is delivered at most once over the job's
whole lifetime (at most one delegate callback in total, hence `OnSuccess`
at most once and `OnFailure` at most once), a step that emits a delegate
callback lands in a terminal state and cannot start from one, and once a
terminal state is entered every subsequent event leaves the job unchanged
and emits nothing. -/
theorem delegate_once_and_terminal_quiescence :
    (∀ (j : Job) evs, Inv j → (j.state = .SUCCESS ∨ j.state = .ERROR) →
      run j evs = (j, [])) ∧
    (∀ (j : Job) ev, Inv j →
      (step j ev).2.countP isDelegateCallback = 1 →
      ((step j ev).1.state = .SUCCESS ∨ (step j ev).1.state = .ERROR) ∧
      ¬ (j.state = .SUCCESS ∨ j.state = .ERROR)) ∧
    (∀ evs,
      (run initialJob evs).2.countP isDelegateCallback ≤ 1 ∧
      (run initialJob evs).2.count .onSuccess ≤ 1 ∧
      (∀ ec, (run initialJob evs).2.count (.onFailure ec) ≤ 1)) := by
  refine ⟨fun j evs h ht => run_terminal_quiescent evs j h ht,
    fun j ev h hcount => ⟨(step_delegate_count j ev h).2 hcount, fun ht => ?_⟩,
    fun evs => ?_⟩
  · rw [step_terminal_quiescent j ev h ht] at hcount
    simp at hcount
  · have hle := (run_delegate_count evs initialJob inv_initialJob).1
    refine ⟨hle, le_trans ?_ hle, fun ec => le_trans ?_ hle⟩
    · rw [List.count]
      exact countP_le_of_imp _ _
        (fun x hx => by
          have : x = Effect.onSuccess := by simpa using hx
          simp [this, isDelegateCallback]) _
    · rw [List.count]
      exact countP_le_of_imp _ _
        (fun x hx => by
          have : x = Effect.onFailure ec := by simpa using hx
          simp [this, isDelegateCallback]) _

/-- Witness for `delegate_once_and_terminal_quiescence` on a terminal job
and the empty trace. -/
theorem delegate_once_and_terminal_quiescence_witness :
    run { initialJob with state := .ERROR } [] =
      ({ initialJob with state := .ERROR }, []) :=
  delegate_once_and_terminal_quiescence.1 { initialJob with state := .ERROR } []
    (by simp [Inv, initialJob, kMaxAttempts]) (Or.inr rfl)

/-- C7: multipart assembly is idempotent and runs once: with boundary and
body already computed, `SetUpMultipart` is a no-op returning the cached
buffer; on every reachable job the segment list and the assembled body are
never simultaneously present; a retry (`HandleError` with attempts
remaining) keeps the body and boundary untouched; and under the invariant
the stored boundary never changes while the stored body survives every
step except the terminal transitions. -/
theorem assembly_runs_once :
    (∀ (j : Job) b, j.mimeBoundary.isSome → j.postData.isSome →
      setUpMultipart b j = (true, { j with state := .PREPARING_CONTENT })) ∧
    (∀ evs, (run initialJob evs).1.dataSegments = [] ∨
      (run initialJob evs).1.postData = none) ∧
    (∀ (j : Job) e, j.retry + 1 < kMaxAttempts →
      (handleError e j).1.postData = j.postData ∧
      (handleError e j).1.mimeBoundary = j.mimeBoundary) ∧
    (∀ (j : Job) ev m, Inv j → j.mimeBoundary = some m →
      (step j ev).1.mimeBoundary = some m) ∧
    (∀ (j : Job) ev bb, Inv j → j.postData = some bb →
      (step j ev).1.postData = some bb ∨ (step j ev).1.state = .SUCCESS ∨
      (step j ev).1.state = .ERROR) := by
  refine ⟨fun j b h1 h2 => by simp [setUpMultipart, h1, h2],
    fun evs => ?_, fun j e hretry => ?_,
    fun j ev m h hm => (step_body_stable j ev h).1 m hm,
    fun j ev bb h hpd => (step_body_stable j ev h).2 bb hpd⟩
  · have h12 := (inv_run evs initialJob inv_initialJob).2.2.2.2.2.2.2.2.2.2.2.1
    by_cases hpd : (run initialJob evs).1.postData.isSome
    · exact Or.inl (h12 hpd).2
    · exact Or.inr (Option.not_isSome_iff_eq_none.mp hpd)
  · have hretry4 : j.retry + 1 < 4 := hretry
    have hmax : ¬ 4 ≤ j.retry + 1 := by omega
    by_cases he : e = .AUTHENTICATION_ERROR <;>
      simp [handleError, kMaxAttempts, hmax, he]

/-- Witness for `assembly_runs_once` (first conjunct) at a job with a cached
boundary and body. -/
theorem assembly_runs_once_witness :
    setUpMultipart ('C' :: [])
      { initialJob with mimeBoundary := some [], postData := some [] } =
      (true,
        { initialJob with
            mimeBoundary := some []
            postData := some []
            state := .PREPARING_CONTENT }) :=
  assembly_runs_once.1
    { initialJob with mimeBoundary := some [], postData := some [] }
    ('C' :: []) (by decide) (by decide)

/-- C10: the custom header entries of a segment are emitted into the body in
sorted key order (the `std::map` iteration order): the emitted entry list is
sorted by field name and is a permutation of the stored entries; the header
block appears inside the segment's chunk; and for a fixed boundary the
assembled body is a deterministic function of the segment list. -/
theorem headers_sorted_and_body_deterministic :
    (∀ hs, List.Sorted keyLe (sortedHeaders hs)) ∧
    (∀ hs, List.Perm (sortedHeaders hs) hs) ∧
    (∀ (s : DataSegment) b, ∃ pre post,
      segmentChunk b s = pre ++ headerBlock (sortedHeaders s.headerEntries) ++ post) ∧
    (∀ b b2 (segs segs2 : List DataSegment), b = b2 → segs = segs2 →
      multipartBody b segs = multipartBody b2 segs2) := by
  refine ⟨fun hs => List.sorted_insertionSort keyLe hs,
    fun hs => List.perm_insertionSort keyLe hs,
    fun s b => ?_, fun b b2 segs segs2 hb hsegs => by rw [hb, hsegs]⟩
  refine ⟨dashBoundary b ++ crlf
    ++ "Content-Disposition: form-data; name=\"".toList ++ s.name ++ ('"' :: [])
    ++ (if s.filename = [] then []
        else "; filename=\"".toList ++ s.filename ++ ('"' :: []))
    ++ crlf, crlf ++ s.data ++ crlf, ?_⟩
  simp [segmentChunk, List.append_assoc]

/-- Witness for `headers_sorted_and_body_deterministic` (determinism
conjunct) at concrete equal inputs. -/
theorem headers_sorted_and_body_deterministic_witness :
    multipartBody [] [] = multipartBody [] [] :=
  headers_sorted_and_body_deterministic.2.2.2 [] [] [] [] rfl rfl

/-! ## Generic lemmas about occurrences, prefixes and first-occurrence
splitting, used for the multipart round-trip -/

theorem prefix_head_eq {a b : Char} {l m : Str} (h : (a :: l) <+: (b :: m)) :
    a = b := by
  obtain ⟨t, ht⟩ := h
  have ht2 : a :: (l ++ t) = b :: m := ht
  injection ht2 with h1 h2

theorem prefix_cons_ne {a b : Char} {l m : Str} (hne : a ≠ b) :
    ¬ (a :: l) <+: (b :: m) :=
  fun h => hne (prefix_head_eq h)

theorem prefix_append_cases {p X Z : Str} (h : p <+: X ++ Z) :
    p <+: X ∨ (X <+: p ∧ p.drop X.length <+: Z) := by
  by_cases hlen : p.length ≤ X.length
  · left
    have hp := List.prefix_iff_eq_take.mp h
    rw [List.take_append_eq_append_take, Nat.sub_eq_zero_of_le hlen,
      List.take_zero, List.append_nil] at hp
    exact hp ▸ List.take_prefix _ _
  · right
    obtain ⟨t, ht⟩ := h
    have hXp : X = p.take X.length := by
      have := congrArg (List.take X.length) ht
      rw [List.take_append_eq_append_take,
        Nat.sub_eq_zero_of_le (le_of_not_le hlen), List.take_zero,
        List.append_nil, List.take_append_eq_append_take, Nat.sub_self,
        List.take_zero, List.append_nil, List.take_length] at this
      exact this.symm
    refine ⟨hXp ▸ List.take_prefix _ _, ⟨t, ?_⟩⟩
    have := congrArg (List.drop X.length) ht
    rw [List.drop_append_eq_append_drop,
      Nat.sub_eq_zero_of_le (le_of_not_le hlen), List.drop_zero,
      List.drop_append_eq_append_drop, Nat.sub_self, List.drop_zero,
      List.drop_length, List.nil_append] at this
    exact this

theorem noOcc_nil (delim Y : Str) : NoOcc delim [] Y := by
  intro d₁ d₂ heq hne
  exact absurd (List.append_eq_nil.mp heq.symm).2 hne

theorem noOcc_append {delim X₁ X₂ Y : Str} (hX₁ : NoOcc delim X₁ (X₂ ++ Y))
    (hX₂ : NoOcc delim X₂ Y) : NoOcc delim (X₁ ++ X₂) Y := by
  intro d₁ d₂ heq hne hpre
  rcases List.append_eq_append_iff.mp heq with ⟨a, ha1, ha2⟩ | ⟨c, hc1, hc2⟩
  · exact hX₂ a d₂ ha2 hne hpre
  · by_cases hcnil : c = []
    · subst hcnil
      simp only [List.nil_append] at hc2
      rw [hc2] at hne hpre
      exact hX₂ [] _ rfl hne hpre
    · refine hX₁ d₁ c hc1 hcnil ?_
      rw [hc2, List.append_assoc] at hpre
      exact hpre

theorem noOcc_head_notMem {c : Char} {tl X Y : Str} (hc : c ∉ X) :
    NoOcc (c :: tl) X Y := by
  intro d₁ d₂ heq hne hpre
  cases d₂ with
  | nil => exact hne rfl
  | cons e d₂ =>
    have he : c = e := prefix_head_eq hpre
    exact hc (heq ▸ List.mem_append.mpr (Or.inr (he ▸ List.mem_cons_self _ _)))

theorem not_prefix_append_cr {p X Z : Str} (hp : ¬ p <+: X) (hcr : '\r' ∉ p)
    (t : Str) (hZ : Z = '\r' :: t) : ¬ p <+: X ++ Z := by
  intro h
  rcases prefix_append_cases h with h | ⟨hXp, hdrop⟩
  · exact hp h
  · rcases hd : p.drop X.length with _ | ⟨c, d⟩
    · have hlen : p.length ≤ X.length := by
        have hlen0 := congrArg List.length hd
        simp only [List.length_drop, List.length_nil] at hlen0
        omega
      have hXeq : X = p :=
        List.IsPrefix.eq_of_length hXp (Nat.le_antisymm hXp.length_le hlen)
      exact hp (by rw [hXeq])
    · rw [hd, hZ] at hdrop
      have hc : c = '\r' := prefix_head_eq hdrop
      exact hcr (hc ▸ (List.drop_suffix X.length p).subset (hd ▸ List.mem_cons_self c d))

theorem splitOnFirst_append (delim X Y : Str) (hne : delim ≠ [])
    (h : NoOcc delim X (delim ++ Y)) :
    splitOnFirst delim (X ++ delim ++ Y) = some (X, Y) := by
  induction X with
  | nil =>
    rcases delim with _ | ⟨d, ds⟩
    · exact absurd rfl hne
    · show splitOnFirst (d :: ds) (d :: (ds ++ Y)) = some ([], Y)
      rw [splitOnFirst]
      rw [if_pos (by exact List.prefix_append (d :: ds) Y)]
      simp [List.drop_left]
  | cons x X ih =>
    have hnotpre : ¬ delim <+: (x :: X) ++ (delim ++ Y) :=
      h [] (x :: X) rfl (by simp)
    rcases delim with _ | ⟨d, ds⟩
    · exact absurd rfl hne
    · show splitOnFirst (d :: ds) (x :: (X ++ (d :: ds) ++ Y)) =
        some (x :: X, Y)
      rw [splitOnFirst]
      rw [if_neg (by simpa using hnotpre)]
      have hrec := ih (fun d₁ d₂ heq hn hp => h (x :: d₁) d₂ (by simp [heq]) hn hp)
      rw [hrec]

theorem occCount_append_noOcc {delim X Y : Str} (h : NoOcc delim X Y) :
    occCount delim (X ++ Y) = occCount delim Y := by
  induction X with
  | nil => simp
  | cons x X ih =>
    show occCount delim (x :: (X ++ Y)) = occCount delim Y
    rw [occCount]
    rw [if_neg (show ¬ delim <+: x :: (X ++ Y) from h [] (x :: X) rfl (by simp))]
    have hrec := ih (fun d₁ d₂ heq hn hp => h (x :: d₁) d₂ (by simp [heq]) hn hp)
    simpa using hrec

theorem occCount_self_append {c : Char} {tl Y : Str} (hc : c ∉ tl) :
    occCount (c :: tl) ((c :: tl) ++ Y) = 1 + occCount (c :: tl) Y := by
  show occCount (c :: tl) (c :: (tl ++ Y)) = 1 + occCount (c :: tl) Y
  rw [occCount]
  rw [if_pos (show (c :: tl) <+: c :: (tl ++ Y) from List.prefix_append (c :: tl) Y)]
  rw [occCount_append_noOcc (noOcc_head_notMem hc)]

theorem infix_of_infix_crlf {X d : Str} (h : X <:+: d) : X <:+: crlf ++ d :=
  h.trans (List.suffix_append crlf d).isInfix

theorem prefix_append_left {l X Y : Str} (h : X <+: Y) : l ++ X <+: l ++ Y := by
  obtain ⟨t, ht⟩ := h
  exact ⟨t, by rw [List.append_assoc, ht]⟩

theorem prefix_cancel_left {l X Y : Str} (h : l ++ X <+: l ++ Y) : X <+: Y := by
  obtain ⟨t, ht⟩ := h
  rw [List.append_assoc] at ht
  exact ⟨t, List.append_cancel_left ht⟩

theorem noOcc_of_not_inside {c : Char} {tl X Z : Str} (hc : c ∉ tl)
    (hinf : ¬ (c :: tl) <:+: X) : NoOcc (c :: tl) X ((c :: tl) ++ Z) := by
  intro d₁ d₂ heq hne hpre
  have hd₂X : d₂ <:+ X := heq ▸ List.suffix_append d₁ d₂
  rcases prefix_append_cases hpre with h | ⟨hXp, hdrop⟩
  · exact hinf (h.isInfix.trans hd₂X.isInfix)
  · rcases hd : (c :: tl).drop d₂.length with _ | ⟨e, d⟩
    · have hlen : (c :: tl).length ≤ d₂.length := by
        have hlen0 := congrArg List.length hd
        simp only [List.length_drop, List.length_nil] at hlen0
        omega
      have hXeq : d₂ = c :: tl :=
        List.IsPrefix.eq_of_length hXp (Nat.le_antisymm hXp.length_le hlen)
      exact hinf (hXeq ▸ hd₂X.isInfix)
    · rw [hd] at hdrop
      have he : e = c := prefix_head_eq hdrop
      have hmem : e ∈ (c :: tl).drop d₂.length := hd ▸ List.mem_cons_self e d
      have hpos : d₂.length ≠ 0 := by
        intro h0
        exact hne (List.length_eq_zero.mp h0)
      have : e ∈ tl := by
        rcases hk : d₂.length with _ | k
        · exact absurd hk hpos
        · rw [hk] at hmem
          simpa using (List.drop_suffix k tl).subset (by simpa using hmem)
      exact hc (he ▸ this)

theorem noOcc_crlf {b Y : Str} (hY : ¬ dashBoundary b <+: Y) :
    NoOcc (crlf ++ dashBoundary b) crlf Y := by
  intro d₁ d₂ heq hne hpre
  have : d₁ ++ d₂ = '\r' :: '\n' :: [] := heq.symm
  rcases d₁ with _ | ⟨x, d₁⟩
  · simp only [List.nil_append] at this
    rw [this] at hpre
    have : dashBoundary b <+: Y := by
      have h2 : (crlf ++ dashBoundary b) <+: crlf ++ Y := by
        simpa [crlf] using hpre
      exact prefix_cancel_left h2
    exact hY this
  · rcases d₁ with _ | ⟨y, d₁⟩
    · simp only [List.cons_append, List.nil_append] at this
      injection this with h1 h2
      rw [h2] at hpre
      have hpre2 : ('\r' :: ('\n' :: dashBoundary b)) <+: ('\n' :: Y) := by
        simp only [crlf, List.cons_append, List.nil_append] at hpre
        exact hpre
      have hbad := prefix_head_eq hpre2
      simp at hbad
    · rcases d₂ with _ | ⟨z, d₂⟩
      · exact hne rfl
      · have hlen := congrArg List.length this
        simp at hlen

theorem parseDisposition_nofn (nm R : Str) (hnm : '"' ∉ nm) :
    parseDisposition (dispositionPrefix ++ (nm ++ ('"' :: (crlf ++ R)))) =
      some (nm, [], R) := by
  rw [parseDisposition]
  rw [if_pos (List.prefix_append _ _)]
  rw [List.drop_left]
  rw [show nm ++ ('"' :: (crlf ++ R)) = nm ++ ('"' :: []) ++ (crlf ++ R) from by simp]
  rw [splitOnFirst_append _ _ _ (by simp) (noOcc_head_notMem hnm)]
  dsimp only
  rw [if_pos (List.prefix_append _ _)]
  rfl

theorem parseDisposition_fn (nm fn R : Str) (hnm : '"' ∉ nm) (hfn : '"' ∉ fn) :
    parseDisposition (dispositionPrefix ++ (nm ++ ('"' ::
      (filenamePrefix ++ (fn ++ ('"' :: (crlf ++ R))))))) = some (nm, fn, R) := by
  rw [parseDisposition]
  rw [if_pos (List.prefix_append _ _)]
  rw [List.drop_left]
  rw [show nm ++ ('"' :: (filenamePrefix ++ (fn ++ ('"' :: (crlf ++ R))))) =
    nm ++ ('"' :: []) ++ (filenamePrefix ++ (fn ++ ('"' :: (crlf ++ R)))) from by simp]
  rw [splitOnFirst_append _ _ _ (by simp) (noOcc_head_notMem hnm)]
  dsimp only
  have hsemi : ∃ t, filenamePrefix = ';' :: t := ⟨_, rfl⟩
  obtain ⟨t, htf⟩ := hsemi
  rw [if_neg (show ¬ crlf <+: filenamePrefix ++ (fn ++ ('"' :: (crlf ++ R))) from by
    rw [htf]
    exact prefix_cons_ne (by decide))]
  rw [if_pos (List.prefix_append _ _)]
  rw [List.drop_left]
  rw [show fn ++ ('"' :: (crlf ++ R)) = fn ++ ('"' :: []) ++ (crlf ++ R) from by simp]
  rw [splitOnFirst_append _ _ _ (by simp) (noOcc_head_notMem hfn)]
  dsimp only
  rw [if_pos (List.prefix_append _ _)]
  rfl

theorem crlf_not_lead {X Z : Str} (hX : '\r' ∉ X) (hne : X ≠ []) :
    ¬ crlf <+: X ++ Z := by
  rcases X with _ | ⟨x, X'⟩
  · exact absurd rfl hne
  · show ¬ crlf <+: x :: (X' ++ Z)
    have hx : x ≠ '\r' := fun h => hX (h ▸ List.mem_cons_self _ _)
    exact prefix_cons_ne (fun h => hx h.symm)

theorem parseHeaderBlock_correct (hs : List (Str × Str)) :
    ∀ (fuel : Nat) (R : Str), hs.length < fuel →
    (∀ e ∈ hs, '\r' ∉ e.1 ∧ ':' ∉ e.1 ∧ '\r' ∉ e.2) →
    parseHeaderBlock fuel (headerBlock hs ++ (crlf ++ R)) = some (hs, R) := by
  induction hs with
  | nil =>
    intro fuel R hf _
    obtain ⟨f, rfl⟩ : ∃ f, fuel = f + 1 := ⟨fuel - 1, by omega⟩
    rw [show headerBlock [] ++ (crlf ++ R) = crlf ++ R from by simp [headerBlock]]
    rw [parseHeaderBlock]
    rw [if_pos (List.prefix_append _ _)]
    rfl
  | cons e hs ih =>
    intro fuel R hf hg
    obtain ⟨f, rfl⟩ : ∃ f, fuel = f + 1 := ⟨fuel - 1, by omega⟩
    obtain ⟨hk, hkc, hv⟩ := hg e (List.mem_cons_self _ _)
    have hXmem : '\r' ∉ e.1 ++ (':' :: ' ' :: e.2) := by
      simp only [List.mem_append, List.mem_cons]
      rintro (h | h | h | h)
      · exact hk h
      · exact absurd h.symm (by decide)
      · exact absurd h.symm (by decide)
      · exact hv h
    have hXne : e.1 ++ (':' :: ' ' :: e.2) ≠ [] := by simp
    rw [show headerBlock (e :: hs) ++ (crlf ++ R) =
      (e.1 ++ (':' :: ' ' :: e.2)) ++ (crlf ++ (headerBlock hs ++ (crlf ++ R)))
      from by simp [headerBlock, headerLine]]
    rw [parseHeaderBlock]
    rw [if_neg (crlf_not_lead hXmem hXne)]
    rw [show (e.1 ++ (':' :: ' ' :: e.2)) ++ (crlf ++ (headerBlock hs ++ (crlf ++ R))) =
      (e.1 ++ (':' :: ' ' :: e.2)) ++ crlf ++ (headerBlock hs ++ (crlf ++ R))
      from (List.append_assoc _ _ _).symm]
    rw [splitOnFirst_append crlf (e.1 ++ (':' :: ' ' :: e.2))
      (headerBlock hs ++ (crlf ++ R)) (by simp [crlf])
      (noOcc_head_notMem hXmem)]
    dsimp only
    rw [show e.1 ++ (':' :: ' ' :: e.2) = e.1 ++ (':' :: ' ' :: []) ++ e.2
      from by simp]
    rw [splitOnFirst_append (':' :: ' ' :: []) e.1 e.2 (by simp)
      (noOcc_of_not_inside (by decide)
        (fun hin => hkc (hin.subset (List.mem_cons_self _ _))))]
    dsimp only
    rw [ih f R (by simpa using Nat.lt_of_succ_lt_succ hf)
      (fun x hx => hg x (List.mem_cons_of_mem _ hx))]

theorem multipartBody_shape (b : Str) (segs : List DataSegment) :
    ∃ t, multipartBody b segs = dashBoundary b ++ t := by
  cases segs with
  | nil =>
    exact ⟨('-' :: '-' :: []) ++ crlf, by simp [multipartBody]⟩
  | cons s rest =>
    refine ⟨crlf
      ++ "Content-Disposition: form-data; name=\"".toList ++ s.name ++ ('"' :: [])
      ++ (if s.filename = [] then []
          else "; filename=\"".toList ++ s.filename ++ ('"' :: []))
      ++ crlf ++ headerBlock (sortedHeaders s.headerEntries)
      ++ crlf ++ s.data ++ crlf
      ++ ((rest.map (segmentChunk b)).flatten ++ dashBoundary b ++ ('-' :: '-' :: []) ++ crlf), ?_⟩
    simp [multipartBody, segmentChunk]

theorem headerBlock_length_le (hs : List (Str × Str)) :
    hs.length ≤ (headerBlock hs).length := by
  induction hs with
  | nil => simp [headerBlock]
  | cons e hs ih =>
    simp only [headerBlock, List.map_cons, List.flatten_cons, List.length_append,
      List.length_cons]
    simp only [headerBlock] at ih
    have h1 : 1 ≤ (headerLine e).length := by
      simp [headerLine, crlf]
      omega
    simp only [headerLine, List.length_append, crlf, List.length_cons,
      List.length_nil] at h1 ⊢
    omega

theorem crlf_drop_two (Q : Str) : (crlf ++ Q).drop 2 = Q := rfl

theorem parseParts_correct (b : Str) (hb : '\r' ∉ b) :
    ∀ (segs : List DataSegment) (fuel : Nat), segs.length < fuel →
    (∀ s ∈ segs, goodSegment b s) →
    parseParts b fuel (multipartBody b segs) = some segs := by
  intro segs
  induction segs with
  | nil =>
    intro fuel hf _
    obtain ⟨f, rfl⟩ : ∃ f, fuel = f + 1 := ⟨fuel - 1, by omega⟩
    rw [show multipartBody b [] = dashBoundary b ++ ('-' :: '-' :: crlf)
      from by simp [multipartBody]]
    rw [parseParts]
    rw [if_pos (List.prefix_append _ _)]
    rw [List.drop_left]
    rw [if_pos rfl]
  | cons s rest ih =>
    intro fuel hf hg
    obtain ⟨f, rfl⟩ : ∃ f, fuel = f + 1 := ⟨fuel - 1, by omega⟩
    obtain ⟨hnmcr, hnmq, hfncr, hfnq, hhdr, hsorted, hdata⟩ :=
      hg s (List.mem_cons_self _ _)
    have hSH : sortedHeaders s.headerEntries = s.headerEntries :=
      List.Sorted.insertionSort_eq hsorted
    obtain ⟨t2, ht2⟩ := multipartBody_shape b rest
    have hdelimcons : crlf ++ dashBoundary b = '\r' :: ('\n' :: dashBoundary b) := rfl
    have htlcr : '\r' ∉ '\n' :: dashBoundary b := by
      simp [dashBoundary]
      exact hb
    have hdatasplit :
        splitOnFirst (crlf ++ dashBoundary b)
          (s.data ++ (crlf ++ (dashBoundary b ++ t2))) = some (s.data, t2) := by
      rw [show s.data ++ (crlf ++ (dashBoundary b ++ t2)) =
        s.data ++ (crlf ++ dashBoundary b) ++ t2 from by simp]
      refine splitOnFirst_append (crlf ++ dashBoundary b) s.data t2 (by simp [crlf]) ?_
      rw [hdelimcons]
      exact noOcc_of_not_inside htlcr
        (fun hin => hdata (infix_of_infix_crlf (hdelimcons ▸ hin)))
    have hhdrblock :
        ∀ R : Str, parseHeaderBlock ((headerBlock s.headerEntries ++ (crlf ++ R)).length + 1)
          (headerBlock s.headerEntries ++ (crlf ++ R)) = some (s.headerEntries, R) := by
      intro R
      refine parseHeaderBlock_correct s.headerEntries _ R ?_
        (fun e he => ⟨(hhdr e he).1, (hhdr e he).2.1, (hhdr e he).2.2.1⟩)
      have h1 := headerBlock_length_le s.headerEntries
      simp only [List.length_append]
      omega
    have hfuel : rest.length < f := by
      simp only [List.length_cons] at hf
      omega
    have hrest := ih f hfuel (fun x hx => hg x (List.mem_cons_of_mem _ hx))
    by_cases hfe : s.filename = []
    · rw [show multipartBody b (s :: rest) =
        dashBoundary b ++ (crlf ++ (dispositionPrefix ++ (s.name ++ ('"' ::
          (crlf ++ (headerBlock s.headerEntries ++ (crlf ++ (s.data ++
            (crlf ++ (dashBoundary b ++ t2)))))))))) from by
        rw [← ht2]
        simp [multipartBody, segmentChunk, dispositionPrefix, hSH, hfe]]
      rw [parseParts]
      rw [if_pos (List.prefix_append _ _)]
      rw [List.drop_left]
      rw [if_neg (by simp [crlf])]
      rw [if_pos (List.prefix_append _ _)]
      rw [crlf_drop_two]
      rw [parseDisposition_nofn _ _ hnmq]
      dsimp only
      rw [hhdrblock]
      dsimp only
      rw [hdatasplit]
      dsimp only
      rw [← ht2]
      rw [hrest]
      dsimp only
      rw [← hfe]
    · rw [show multipartBody b (s :: rest) =
        dashBoundary b ++ (crlf ++ (dispositionPrefix ++ (s.name ++ ('"' ::
          (filenamePrefix ++ (s.filename ++ ('"' ::
            (crlf ++ (headerBlock s.headerEntries ++ (crlf ++ (s.data ++
              (crlf ++ (dashBoundary b ++ t2))))))))))))) from by
        rw [← ht2]
        simp [multipartBody, segmentChunk, dispositionPrefix, filenamePrefix, hSH, hfe]]
      rw [parseParts]
      rw [if_pos (List.prefix_append _ _)]
      rw [List.drop_left]
      rw [if_neg (by simp [crlf])]
      rw [if_pos (List.prefix_append _ _)]
      rw [crlf_drop_two]
      rw [parseDisposition_fn _ _ _ hnmq hfnq]
      dsimp only
      rw [hhdrblock]
      dsimp only
      rw [hdatasplit]
      dsimp only
      rw [← ht2]
      rw [hrest]

theorem NoOcc.congr {delim X X' Y Y' : Str} (hX : X = X') (hY : Y = Y')
    (h : NoOcc delim X Y) : NoOcc delim X' Y' := hX ▸ hY ▸ h

theorem not_dashB_prefix_cr {b Z : Str} (t : Str) (hZ : Z = '\r' :: t) :
    ¬ dashBoundary b <+: Z := by
  rw [hZ]
  exact prefix_cons_ne (by decide)

theorem noOcc_headerRegion (b : Str) (hbd : '\r' ∉ dashBoundary b) :
    ∀ (hs : List (Str × Str)) (Z : Str),
    (∀ e ∈ hs, '\r' ∉ e.1 ∧ ':' ∉ e.1 ∧ '\r' ∉ e.2 ∧
      ¬ dashBoundary b <+: (e.1 ++ ':' :: ' ' :: e.2)) →
    (¬ dashBoundary b <+: Z) →
    NoOcc (crlf ++ dashBoundary b) (headerBlock hs) Z ∧
    ¬ dashBoundary b <+: headerBlock hs ++ Z := by
  intro hs
  induction hs with
  | nil =>
    intro Z _ hZ
    refine ⟨NoOcc.congr (by simp [headerBlock]) rfl (noOcc_nil _ Z), ?_⟩
    rw [show headerBlock [] ++ Z = Z from by simp [headerBlock]]
    exact hZ
  | cons e hs ih =>
    intro Z hg hZ
    obtain ⟨hk, hkc, hv, hnp⟩ := hg e (List.mem_cons_self _ _)
    obtain ⟨hN, hP⟩ := ih Z (fun x hx => hg x (List.mem_cons_of_mem _ hx)) hZ
    have hXmem : '\r' ∉ e.1 ++ (':' :: ' ' :: e.2) := by
      simp only [List.mem_append, List.mem_cons]
      rintro (h | h | h | h)
      · exact hk h
      · exact absurd h.symm (by decide)
      · exact absurd h.symm (by decide)
      · exact hv h
    have hline : headerBlock (e :: hs) =
        (e.1 ++ (':' :: ' ' :: e.2)) ++ (crlf ++ headerBlock hs) := by
      simp [headerBlock, headerLine]
    constructor
    · refine NoOcc.congr hline.symm rfl ?_
      refine noOcc_append ?_ ?_
      · exact noOcc_head_notMem hXmem
      · refine noOcc_append ?_ hN
        exact noOcc_crlf hP
    · rw [show headerBlock (e :: hs) ++ Z =
        (e.1 ++ (':' :: ' ' :: e.2)) ++ (crlf ++ (headerBlock hs ++ Z))
        from by simp [headerBlock, headerLine]]
      exact not_prefix_append_cr hnp hbd ('\n' :: (headerBlock hs ++ Z)) rfl

theorem occCount_delim_terminal (b : Str) :
    occCount (crlf ++ dashBoundary b) ('-' :: '-' :: crlf) = 0 := by
  have hd : (crlf ++ dashBoundary b : Str) = '\r' :: ('\n' :: dashBoundary b) := rfl
  have hmid : ¬ ('\r' :: ('\n' :: dashBoundary b)) <+: '\r' :: ('\n' :: ([] : Str)) := by
    intro h
    have hl := h.length_le
    simp [dashBoundary] at hl
  rw [hd]
  show occCount _ ('-' :: ('-' :: ('\r' :: ('\n' :: [])))) = 0
  rw [occCount]
  rw [if_neg (prefix_cons_ne (by decide))]
  rw [occCount]
  rw [if_neg (prefix_cons_ne (by decide))]
  rw [occCount]
  rw [if_neg hmid]
  rw [occCount]
  rw [if_neg (prefix_cons_ne (by decide))]
  rw [occCount]

theorem occCount_multipart (b : Str) (hb : '\r' ∉ b) :
    ∀ segs : List DataSegment, (∀ s ∈ segs, goodSegment b s) →
    occCount (crlf ++ dashBoundary b) (multipartBody b segs) = segs.length := by
  have hbd : '\r' ∉ dashBoundary b := by
    simp [dashBoundary]
    exact hb
  have htlcr : '\r' ∉ '\n' :: dashBoundary b := by
    simp [dashBoundary]
    exact hb
  intro segs
  induction segs with
  | nil =>
    intro _
    rw [show multipartBody b [] = dashBoundary b ++ ('-' :: '-' :: crlf)
      from by simp [multipartBody]]
    have hno : NoOcc (crlf ++ dashBoundary b) (dashBoundary b)
        ('-' :: '-' :: crlf) := noOcc_head_notMem hbd
    rw [occCount_append_noOcc hno]
    rw [occCount_delim_terminal b]
    rfl
  | cons s rest ih =>
    intro hg
    obtain ⟨hnmcr, hnmq, hfncr, hfnq, hhdr, hsorted, hdata⟩ :=
      hg s (List.mem_cons_self _ _)
    have hSH : sortedHeaders s.headerEntries = s.headerEntries :=
      List.Sorted.insertionSort_eq hsorted
    obtain ⟨t2, ht2⟩ := multipartBody_shape b rest
    have nD : NoOcc (crlf ++ dashBoundary b) s.data
        (crlf ++ dashBoundary b ++ t2) :=
      noOcc_of_not_inside htlcr (fun hin => hdata (infix_of_infix_crlf hin))
    have hnpdata : ¬ dashBoundary b <+: s.data ++ (crlf ++ dashBoundary b ++ t2) := by
      refine not_prefix_append_cr ?_ hbd (('\n' :: dashBoundary b) ++ t2) rfl
      intro h
      exact hdata (prefix_append_left h).isInfix
    have nC3 : NoOcc (crlf ++ dashBoundary b) crlf
        (s.data ++ (crlf ++ dashBoundary b ++ t2)) := noOcc_crlf hnpdata
    have hZnp : ¬ dashBoundary b <+:
        crlf ++ (s.data ++ (crlf ++ dashBoundary b ++ t2)) :=
      not_dashB_prefix_cr _ rfl
    obtain ⟨nH, hHnp⟩ := noOcc_headerRegion b hbd s.headerEntries
      (crlf ++ (s.data ++ (crlf ++ dashBoundary b ++ t2))) hhdr hZnp
    have hrest : occCount (crlf ++ dashBoundary b) t2 = rest.length := by
      have h0 := ih (fun x hx => hg x (List.mem_cons_of_mem _ hx))
      rw [ht2] at h0
      rw [occCount_append_noOcc
        (show NoOcc (crlf ++ dashBoundary b) (dashBoundary b) t2
          from noOcc_head_notMem hbd)] at h0
      exact h0
    have key : ∀ DISPC : Str, '\r' ∉ DISPC →
        (∃ tC, DISPC = 'C' :: tC) →
        occCount (crlf ++ dashBoundary b)
          ((dashBoundary b ++ (crlf ++ (DISPC ++ (crlf ++
            (headerBlock s.headerEntries ++ (crlf ++ s.data)))))) ++
            (crlf ++ dashBoundary b ++ t2)) = rest.length + 1 := by
      intro DISPC hDcr hDc
      obtain ⟨tC, htC⟩ := hDc
      have n_data_reg : NoOcc (crlf ++ dashBoundary b) (crlf ++ s.data)
          (crlf ++ dashBoundary b ++ t2) := noOcc_append nC3 nD
      have n_hdr_reg : NoOcc (crlf ++ dashBoundary b)
          (headerBlock s.headerEntries ++ (crlf ++ s.data))
          (crlf ++ dashBoundary b ++ t2) := by
        refine noOcc_append (NoOcc.congr rfl ?_ nH) n_data_reg
        simp
      have n_disp_line : NoOcc (crlf ++ dashBoundary b) DISPC
          ((crlf ++ (headerBlock s.headerEntries ++ (crlf ++ s.data))) ++
            (crlf ++ dashBoundary b ++ t2)) := noOcc_head_notMem hDcr
      have hYB : ¬ dashBoundary b <+:
          (headerBlock s.headerEntries ++ (crlf ++ s.data)) ++
            (crlf ++ dashBoundary b ++ t2) := by
        rw [show (headerBlock s.headerEntries ++ (crlf ++ s.data)) ++
            (crlf ++ dashBoundary b ++ t2) =
          headerBlock s.headerEntries ++
            (crlf ++ (s.data ++ (crlf ++ dashBoundary b ++ t2))) from by simp]
        exact hHnp
      have n_crlfB : NoOcc (crlf ++ dashBoundary b) crlf
          ((headerBlock s.headerEntries ++ (crlf ++ s.data)) ++
            (crlf ++ dashBoundary b ++ t2)) := noOcc_crlf hYB
      have n_disp_reg : NoOcc (crlf ++ dashBoundary b)
          (crlf ++ (headerBlock s.headerEntries ++ (crlf ++ s.data)))
          (crlf ++ dashBoundary b ++ t2) := noOcc_append n_crlfB n_hdr_reg
      have n_disp_all : NoOcc (crlf ++ dashBoundary b)
          (DISPC ++ (crlf ++ (headerBlock s.headerEntries ++ (crlf ++ s.data))))
          (crlf ++ dashBoundary b ++ t2) := noOcc_append n_disp_line n_disp_reg
      have hYA : ¬ dashBoundary b <+:
          (DISPC ++ (crlf ++ (headerBlock s.headerEntries ++ (crlf ++ s.data)))) ++
            (crlf ++ dashBoundary b ++ t2) := by
        rw [htC]
        exact prefix_cons_ne (by decide)
      have n_crlfA : NoOcc (crlf ++ dashBoundary b) crlf
          ((DISPC ++ (crlf ++ (headerBlock s.headerEntries ++ (crlf ++ s.data)))) ++
            (crlf ++ dashBoundary b ++ t2)) := noOcc_crlf hYA
      have n_crlf_disp : NoOcc (crlf ++ dashBoundary b)
          (crlf ++ (DISPC ++ (crlf ++ (headerBlock s.headerEntries ++
            (crlf ++ s.data))))) (crlf ++ dashBoundary b ++ t2) :=
        noOcc_append n_crlfA n_disp_all
      have n_dashB : NoOcc (crlf ++ dashBoundary b) (dashBoundary b)
          ((crlf ++ (DISPC ++ (crlf ++ (headerBlock s.headerEntries ++
            (crlf ++ s.data))))) ++ (crlf ++ dashBoundary b ++ t2)) :=
        noOcc_head_notMem hbd
      have hCH : NoOcc (crlf ++ dashBoundary b)
          (dashBoundary b ++ (crlf ++ (DISPC ++ (crlf ++
            (headerBlock s.headerEntries ++ (crlf ++ s.data))))))
          (crlf ++ dashBoundary b ++ t2) := noOcc_append n_dashB n_crlf_disp
      rw [occCount_append_noOcc hCH]
      rw [show occCount (crlf ++ dashBoundary b) (crlf ++ dashBoundary b ++ t2) =
        1 + occCount (crlf ++ dashBoundary b) t2 from occCount_self_append htlcr]
      rw [hrest]
      omega
    by_cases hfe : s.filename = []
    · rw [show multipartBody b (s :: rest) =
        (dashBoundary b ++ (crlf ++
          ((dispositionPrefix ++ (s.name ++ ('"' :: []))) ++ (crlf ++
            (headerBlock s.headerEntries ++ (crlf ++ s.data)))))) ++
          (crlf ++ dashBoundary b ++ t2) from by
        rw [show crlf ++ dashBoundary b ++ t2 = crlf ++ (dashBoundary b ++ t2)
          from by simp]
        rw [← ht2]
        simp [multipartBody, segmentChunk, dispositionPrefix, hSH, hfe]]
      rw [key (dispositionPrefix ++ (s.name ++ ('"' :: [])))
        (by
          simp only [List.mem_append, List.mem_cons]
          rintro (h | h | h | h)
          · exact absurd h (by decide)
          · exact hnmcr h
          · exact absurd h.symm (by decide)
          · simp at h)
        ⟨_, rfl⟩]
      simp
    · rw [show multipartBody b (s :: rest) =
        (dashBoundary b ++ (crlf ++
          ((dispositionPrefix ++ (s.name ++ ('"' ::
            (filenamePrefix ++ (s.filename ++ ('"' :: [])))))) ++ (crlf ++
            (headerBlock s.headerEntries ++ (crlf ++ s.data)))))) ++
          (crlf ++ dashBoundary b ++ t2) from by
        rw [show crlf ++ dashBoundary b ++ t2 = crlf ++ (dashBoundary b ++ t2)
          from by simp]
        rw [← ht2]
        simp [multipartBody, segmentChunk, dispositionPrefix, filenamePrefix, hSH, hfe]]
      rw [key (dispositionPrefix ++ (s.name ++ ('"' ::
            (filenamePrefix ++ (s.filename ++ ('"' :: []))))))
        (by
          simp only [List.mem_append, List.mem_cons]
          rintro (h | h | h | h | h | h | h)
          · exact absurd h (by decide)
          · exact hnmcr h
          · exact absurd h.symm (by decide)
          · exact absurd h (by decide)
          · exact hfncr h
          · exact absurd h.symm (by decide)
          · simp at h)
        ⟨_, rfl⟩]
      simp

theorem multipartBody_length (b : Str) (segs : List DataSegment) :
    segs.length < (multipartBody b segs).length + 1 := by
  induction segs with
  | nil => simp
  | cons s rest ih =>
    rw [show multipartBody b (s :: rest) =
      segmentChunk b s ++ multipartBody b rest from by simp [multipartBody]]
    have h1 : 1 ≤ (segmentChunk b s).length := by
      simp [segmentChunk, dashBoundary]
    simp only [List.length_append, List.length_cons]
    simp only [List.length_cons] at ih
    omega

/-- C1 counterexample: with boundary `B` and a single segment (so the names
are trivially pairwise distinct) whose data is the five bytes `\r\n--B`,
the claim fails as stated: the assembled buffer contains three occurrences
of the boundary delimiter `--B` instead of one per segment plus one
terminal (two), and parsing the buffer back with the multipart parser fails
instead of recovering the segment's data. -/
theorem multipart_roundtrip_counterexample :
    (([cexSegment].map DataSegment.name)).Nodup ∧
    occCount (dashBoundary cexBoundary) (multipartBody cexBoundary [cexSegment]) = 3 ∧
    parseMultipart cexBoundary (multipartBody cexBoundary [cexSegment]) = none := by
  refine ⟨by decide, by decide, by decide⟩

/-- C1 (amended): for every list of pairwise-distinctly-named segments and
every boundary, provided the boundary has no CR byte and each segment
satisfies the side conditions of `goodSegment` (no CR or double quote in
name and filename, header keys free of CR and colons, header values free of
CR, no header line starting with the dash-boundary, the data not containing
and not starting at the CRLF-led boundary delimiter, headers sorted as a
`std::map` keeps them), the assembled buffer starts with the dash-boundary
line of the first segment, contains exactly one further CRLF-preceded
dash-boundary per segment (closing that segment — so exactly one boundary
delimiter per segment in total), ends with the single terminal delimiter
`--<boundary>--\r\n`, and parsing the buffer back recovers the original
names, filenames, header entries and byte-exact data of every segment. -/
theorem multipart_roundtrip :
    ∀ (b : Str) (segs : List DataSegment),
      '\r' ∉ b →
      (segs.map DataSegment.name).Nodup →
      (∀ s ∈ segs, goodSegment b s) →
      dashBoundary b <+: multipartBody b segs ∧
      occCount (crlf ++ dashBoundary b) (multipartBody b segs) = segs.length ∧
      (dashBoundary b ++ ('-' :: '-' :: []) ++ crlf) <:+ multipartBody b segs ∧
      parseMultipart b (multipartBody b segs) = some segs := by
  intro b segs hb _ hg
  refine ⟨?_, occCount_multipart b hb segs hg,
    ⟨(segs.map (segmentChunk b)).flatten, by simp [multipartBody]⟩, ?_⟩
  · obtain ⟨t, ht⟩ := multipartBody_shape b segs
    rw [ht]
    exact List.prefix_append _ _
  · exact parseParts_correct b hb segs _ (multipartBody_length b segs) hg

/-- Witness for `multipart_roundtrip` at a concrete boundary and segment
list. -/
theorem multipart_roundtrip_witness :
    parseMultipart ('X' :: [])
      (multipartBody ('X' :: []) [⟨'a' :: [], [], [], 'd' :: []⟩]) =
      some [⟨'a' :: [], [], [], 'd' :: []⟩] :=
  (multipart_roundtrip ('X' :: []) [⟨'a' :: [], [], [], 'd' :: []⟩]
    (by decide) (by decide)
    (by
      intro s hs
      simp only [List.mem_singleton] at hs
      subst hs
      refine ⟨by decide, by decide, by decide, by decide, by simp, by simp, ?_⟩
      intro h
      have hl := h.sublist.length_le
      simp [crlf, dashBoundary] at hl)).2.2.2

end UploadJob
